import Mathlib

/-!
Verification of the career-paths API core logic: a shallow embedding of the
resilience layer (circuit breaker, retry), the pure evaluation domain logic
(cycle completeness, score aggregation), the aggregation writer, the two
AI-response ingestion pipelines and the accept-path transition, with theorems
settling the specified behavioural claims.
-/

/-! ## Circuit breaker (app/integrations/circuit_breaker.py) -/

/-- States of the circuit breaker (`CircuitState`). -/
inductive CircuitState where
  | CLOSED
  | OPEN
  | HALF_OPEN
deriving DecidableEq, Repr

/-- Mutable state of a `CircuitBreaker` instance.  Wall-clock instants are
modelled as rationals. -/
structure CircuitBreaker where
  failure_threshold : Nat
  timeout : ℚ
  failure_count : Nat
  last_failure_time : Option ℚ
  state : CircuitState
deriving DecidableEq, Repr

/-- `CircuitBreaker.__init__`: fresh breaker. -/
def initBreaker (threshold : Nat) (tmo : ℚ) : CircuitBreaker :=
  { failure_threshold := threshold
    timeout := tmo
    failure_count := 0
    last_failure_time := none
    state := CircuitState.CLOSED }

/-- `CircuitBreaker._should_attempt_reset`: true when at least `timeout`
seconds elapsed since the recorded last failure. -/
def shouldAttemptReset (cb : CircuitBreaker) (now : ℚ) : Bool :=
  match cb.last_failure_time with
  | none => false
  | some t => decide (cb.timeout ≤ now - t)

/-- Observable outcome of one `CircuitBreaker.call`: the call was rejected
without invoking the wrapped function, or the wrapped function was invoked
and succeeded, or was invoked and raised. -/
inductive CallResult where
  | rejected
  | succeeded
  | failed
deriving DecidableEq, Repr

/-- `CircuitBreaker.call`.  `outcome` is what the wrapped coroutine would do
if invoked now (`true` = return normally, `false` = raise); `now` is the
current wall-clock time used for `time.time()`.  Returns the observable
result together with the post-call breaker state. -/
def CircuitBreaker.call (cb : CircuitBreaker) (now : ℚ) (outcome : Bool) :
    CallResult × CircuitBreaker :=
  let pre : Option CircuitBreaker :=
    if cb.state = CircuitState.OPEN then
      if shouldAttemptReset cb now then
        some { cb with state := CircuitState.HALF_OPEN }
      else
        none
    else
      some cb
  match pre with
  | none => (CallResult.rejected, cb)
  | some cb1 =>
    if outcome then
      if cb1.state = CircuitState.HALF_OPEN then
        (CallResult.succeeded,
          { cb1 with
              state := CircuitState.CLOSED
              failure_count := 0
              last_failure_time := none })
      else
        (CallResult.succeeded, cb1)
    else
      let cb2 := { cb1 with
                     failure_count := cb1.failure_count + 1
                     last_failure_time := some now }
      if cb2.failure_threshold ≤ cb2.failure_count then
        (CallResult.failed, { cb2 with state := CircuitState.OPEN })
      else
        (CallResult.failed, cb2)

/-- Run a sequence of calls `(time, outcome)` through the breaker, keeping
only the final state. -/
def runCalls (cb : CircuitBreaker) (calls : List (ℚ × Bool)) : CircuitBreaker :=
  calls.foldl (fun s c => (CircuitBreaker.call s c.1 c.2).2) cb

/-- Number of would-fail calls in a trace. -/
def countFailures (calls : List (ℚ × Bool)) : Nat :=
  (calls.filter (fun c => c.2 = false)).length

/-! ## Retry with exponential backoff (app/integrations/retry.py) -/

/-- Result of running `retry_with_backoff` over a deterministic attempt
behaviour: the final outcome, the number of invocations of the wrapped
function, and the list of sleep delays performed between attempts, in
order. -/
structure RetryTrace (E A : Type) where
  result : Except E A
  invocations : Nat
  sleeps : List ℚ
deriving Repr

/-- The `for attempt in range(1, max_attempts + 1)` loop of
`retry_with_backoff`.  `f i` is what the wrapped coroutine does on its i-th
invocation (1-indexed); `fuel = max_attempts - attempt` is the number of
further attempts still allowed (so `attempt < max_attempts` iff
`0 < fuel`); `delay` is the current backoff delay. -/
def retryGo (f : Nat → Except E A) (attempt fuel : Nat)
    (delay backoff_factor : ℚ) : RetryTrace E A :=
  match f attempt with
  | Except.ok a => { result := Except.ok a, invocations := 1, sleeps := [] }
  | Except.error e =>
    match fuel with
    | 0 => { result := Except.error e, invocations := 1, sleeps := [] }
    | fuel2 + 1 =>
      let rest := retryGo f (attempt + 1) fuel2 (delay * backoff_factor)
        backoff_factor
      { result := rest.result
        invocations := rest.invocations + 1
        sleeps := delay :: rest.sleeps }

/-- `retry_with_backoff(func, max_retries, initial_delay, backoff_factor)`:
total attempts = `max_retries + 1`, starting at attempt 1 with
`max_retries` further attempts allowed and starting delay
`initial_delay`. -/
def retry_with_backoff (f : Nat → Except E A) (max_retries : Nat)
    (initial_delay backoff_factor : ℚ) : RetryTrace E A :=
  retryGo f 1 max_retries initial_delay backoff_factor

/-- The retried call as seen by the circuit breaker in
`AICareerClient._call_production_api`: the `@with_retry` wrapper is the
function the `@with_circuit_breaker` wrapper invokes, so the breaker sees a
single success or a single raised exception per logical operation. -/
def composedCall (cb : CircuitBreaker) (now : ℚ) (f : Nat → Except E A)
    (max_retries : Nat) (initial_delay backoff_factor : ℚ) :
    CallResult × CircuitBreaker :=
  CircuitBreaker.call cb now
    (match (retry_with_backoff f max_retries initial_delay backoff_factor).result with
     | Except.ok _ => true
     | Except.error _ => false)

/-! ### Circuit breaker lemmas -/

/-- Configuration fields are never written by `call`. -/
theorem call_preserves_config (cb : CircuitBreaker) (now : ℚ) (o : Bool) :
    (cb.call now o).2.failure_threshold = cb.failure_threshold ∧
      (cb.call now o).2.timeout = cb.timeout := by
  unfold CircuitBreaker.call
  by_cases hs : cb.state = CircuitState.OPEN <;>
    by_cases hr : shouldAttemptReset cb now <;>
      cases o <;>
        simp [hs, hr] <;>
          split <;> simp

/-- A successful call through a CLOSED breaker leaves the breaker state
exactly as it was. -/
theorem call_closed_success (cb : CircuitBreaker) (now : ℚ)
    (h : cb.state = CircuitState.CLOSED) :
    cb.call now true = (CallResult.succeeded, cb) := by
  unfold CircuitBreaker.call
  simp [h]

/-- A failing call through a CLOSED breaker increments the counter, stamps
the failure time, and opens the circuit exactly when the threshold is
reached. -/
theorem call_closed_failure (cb : CircuitBreaker) (now : ℚ)
    (h : cb.state = CircuitState.CLOSED) :
    cb.call now false =
      (CallResult.failed,
        { cb with
            failure_count := cb.failure_count + 1
            last_failure_time := some now
            state :=
              if cb.failure_threshold ≤ cb.failure_count + 1 then
                CircuitState.OPEN
              else
                cb.state }) := by
  unfold CircuitBreaker.call
  by_cases hth : cb.failure_threshold ≤ cb.failure_count + 1 <;> simp [h, hth]

/-- The breaker invariant: away from CLOSED the failure counter has reached
the threshold. -/
def BreakerInv (cb : CircuitBreaker) : Prop :=
  cb.state ≠ CircuitState.CLOSED → cb.failure_threshold ≤ cb.failure_count

/-- One call preserves the breaker invariant. -/
theorem call_preserves_inv (cb : CircuitBreaker) (now : ℚ) (o : Bool)
    (h : BreakerInv cb) : BreakerInv (cb.call now o).2 := by
  unfold CircuitBreaker.call
  by_cases hs : cb.state = CircuitState.OPEN
  case pos =>
    have hc : cb.failure_threshold ≤ cb.failure_count := h (by simp [hs])
    by_cases hr : shouldAttemptReset cb now <;> cases o <;>
        simp [hs, hr, BreakerInv] <;> try omega
    all_goals (split <;> simp_all [BreakerInv] <;> omega)
  case neg =>
    by_cases hh : cb.state = CircuitState.HALF_OPEN
    case pos =>
      have hc : cb.failure_threshold ≤ cb.failure_count := h (by simp [hh])
      cases o <;> simp [hs, hh, BreakerInv] <;> try omega
      all_goals (split <;> simp_all [BreakerInv] <;> omega)
    case neg =>
      have hcl : cb.state = CircuitState.CLOSED := by
        cases hcs : cb.state <;> simp_all
      cases o <;> simp [hs, hcl, BreakerInv] <;> try omega
      all_goals (split <;> simp_all [BreakerInv] <;> omega)

/-- Breaker states reachable from a freshly constructed breaker by a
sequence of calls. -/
def ReachableBreaker (cb : CircuitBreaker) : Prop :=
  ∃ threshold tmo calls, cb = runCalls (initBreaker threshold tmo) calls

/-- Multi-call runs preserve the breaker invariant. -/
theorem runCalls_preserves_inv (calls : List (ℚ × Bool)) (cb : CircuitBreaker)
    (h : BreakerInv cb) : BreakerInv (runCalls cb calls) := by
  induction calls generalizing cb with
  | nil => exact h
  | cons c rest ih => exact ih _ (call_preserves_inv cb c.1 c.2 h)

/-- Every reachable breaker satisfies the invariant. -/
theorem reachable_inv (cb : CircuitBreaker) (h : ReachableBreaker cb) :
    BreakerInv cb := by
  obtain ⟨n, tmo, calls, rfl⟩ := h
  exact runCalls_preserves_inv calls _ (by intro hs; simp [initBreaker] at hs)

/-- Unfolding lemma for one step of `runCalls`. -/
theorem runCalls_cons (cb : CircuitBreaker) (c : ℚ × Bool)
    (rest : List (ℚ × Bool)) :
    runCalls cb (c :: rest) = runCalls (cb.call c.1 c.2).2 rest := rfl

/-- `countFailures` ignores a successful call at the head of a trace. -/
theorem countFailures_cons_true (t : ℚ) (rest : List (ℚ × Bool)) :
    countFailures ((t, true) :: rest) = countFailures rest := by
  simp [countFailures, List.filter]

/-- `countFailures` counts a failing call at the head of a trace. -/
theorem countFailures_cons_false (t : ℚ) (rest : List (ℚ × Bool)) :
    countFailures ((t, false) :: rest) = 1 + countFailures rest := by
  simp [countFailures, List.filter, Nat.add_comm]

/-- In the OPEN state before the cooldown has elapsed, a call is rejected
and the breaker is untouched. -/
theorem call_open_rejected (cb : CircuitBreaker) (now tl : ℚ) (o : Bool)
    (hs : cb.state = CircuitState.OPEN)
    (hl : cb.last_failure_time = some tl)
    (ht : now - tl < cb.timeout) :
    cb.call now o = (CallResult.rejected, cb) := by
  have hr : shouldAttemptReset cb now = false := by
    simp [shouldAttemptReset, hl, ht, not_le.mpr ht]
  unfold CircuitBreaker.call
  simp [hs, hr]

/-- In the OPEN state once the cooldown has elapsed, a successful call
executes through the transient HALF_OPEN state and fully closes the
breaker. -/
theorem call_open_reset_success (cb : CircuitBreaker) (now tl : ℚ)
    (hs : cb.state = CircuitState.OPEN)
    (hl : cb.last_failure_time = some tl)
    (ht : cb.timeout ≤ now - tl) :
    cb.call now true =
      (CallResult.succeeded,
        { cb with
            state := CircuitState.CLOSED
            failure_count := 0
            last_failure_time := none }) := by
  have hr : shouldAttemptReset cb now = true := by
    simp [shouldAttemptReset, hl, ht]
  unfold CircuitBreaker.call
  simp [hs, hr]

/-- In the OPEN state once the cooldown has elapsed, a failing trial call
increments the counter and reopens the breaker with a fresh failure
timestamp. -/
theorem call_open_reset_failure (cb : CircuitBreaker) (now tl : ℚ)
    (hs : cb.state = CircuitState.OPEN)
    (hl : cb.last_failure_time = some tl)
    (ht : cb.timeout ≤ now - tl)
    (hc : cb.failure_threshold ≤ cb.failure_count) :
    cb.call now false =
      (CallResult.failed,
        { cb with
            state := CircuitState.OPEN
            failure_count := cb.failure_count + 1
            last_failure_time := some now }) := by
  have hr : shouldAttemptReset cb now = true := by
    simp [shouldAttemptReset, hl, ht]
  unfold CircuitBreaker.call
  simp [hs, hr, Nat.le_succ_of_le hc]

/-- A successful call in the HALF_OPEN state resets the counter, clears the
failure time and closes the circuit. -/
theorem call_halfopen_success (cb : CircuitBreaker) (now : ℚ)
    (hh : cb.state = CircuitState.HALF_OPEN) :
    cb.call now true =
      (CallResult.succeeded,
        { cb with
            state := CircuitState.CLOSED
            failure_count := 0
            last_failure_time := none }) := by
  unfold CircuitBreaker.call
  simp [hh]

/-- A failing call in the HALF_OPEN state (with the counter at or past the
threshold, as in every reachable HALF_OPEN configuration) increments the
counter and reopens the breaker. -/
theorem call_halfopen_failure (cb : CircuitBreaker) (now : ℚ)
    (hh : cb.state = CircuitState.HALF_OPEN)
    (hc : cb.failure_threshold ≤ cb.failure_count) :
    cb.call now false =
      (CallResult.failed,
        { cb with
            state := CircuitState.OPEN
            failure_count := cb.failure_count + 1
            last_failure_time := some now }) := by
  unfold CircuitBreaker.call
  simp [hh, Nat.le_succ_of_le hc]

/-- While the accumulated failures stay below the threshold, a CLOSED
breaker remains CLOSED and its counter adds up exactly the failures of the
trace, successes interleaved or not. -/
theorem runCalls_closed (calls : List (ℚ × Bool)) (cb : CircuitBreaker)
    (hs : cb.state = CircuitState.CLOSED)
    (hlt : cb.failure_count + countFailures calls < cb.failure_threshold) :
    (runCalls cb calls).state = CircuitState.CLOSED ∧
      (runCalls cb calls).failure_count =
        cb.failure_count + countFailures calls ∧
      (runCalls cb calls).failure_threshold = cb.failure_threshold := by
  induction calls generalizing cb with
  | nil => simp [runCalls, countFailures, hs]
  | cons c rest ih =>
    obtain ⟨t, o⟩ := c
    rw [runCalls_cons]
    cases o with
    | true =>
      rw [countFailures_cons_true] at hlt ⊢
      rw [call_closed_success cb t hs]
      exact ih cb hs hlt
    | false =>
      rw [countFailures_cons_false] at hlt ⊢
      rw [call_closed_failure cb t hs]
      have hnth : ¬ cb.failure_threshold ≤ cb.failure_count + 1 := by omega
      simp only [if_neg hnth]
      have hrec := ih
        { cb with
            failure_count := cb.failure_count + 1
            last_failure_time := some t
            state := cb.state }
        (by simpa using hs) (by simp; omega)
      obtain ⟨h1, h2, h3⟩ := hrec
      simp at h2 h3
      exact ⟨h1, by omega, by omega⟩

/-- `runCalls` splits over trace concatenation. -/
theorem runCalls_append (cb : CircuitBreaker) (l1 l2 : List (ℚ × Bool)) :
    runCalls cb (l1 ++ l2) = runCalls (runCalls cb l1) l2 := by
  simp [runCalls, List.foldl_append]

/-- An all-failure trace has as many failures as calls. -/
theorem countFailures_map_false (l : List ℚ) :
    countFailures (l.map (fun t => (t, false))) = l.length := by
  induction l with
  | nil => simp [countFailures]
  | cons t rest ih =>
    rw [List.map_cons, countFailures_cons_false, ih]
    simp [Nat.add_comm]

/-- From a fresh breaker with threshold `n ≥ 1`, `n` consecutive failures
leave the circuit OPEN with the counter at `n`. -/
theorem fresh_consecutive_failures_open (n : Nat) (tmo : ℚ) (ts : List ℚ)
    (hn : 1 ≤ n) (hlen : ts.length = n) :
    (runCalls (initBreaker n tmo) (ts.map (fun t => (t, false)))).state
        = CircuitState.OPEN ∧
      (runCalls (initBreaker n tmo)
          (ts.map (fun t => (t, false)))).failure_count = n := by
  have hne : ts ≠ [] := by
    intro h
    subst h
    simp at hlen
    omega
  obtain ⟨l, t, rfl⟩ : ∃ l t, ts = l ++ [t] :=
    ⟨ts.dropLast, ts.getLast hne, (List.dropLast_append_getLast hne).symm⟩
  rw [List.map_append, runCalls_append]
  have hlen2 : l.length = n - 1 := by
    simp at hlen
    omega
  have hcl := runCalls_closed (l.map (fun t => (t, false))) (initBreaker n tmo)
    rfl (by rw [countFailures_map_false, hlen2]; simp [initBreaker]; omega)
  obtain ⟨hs1, hc1, ht1⟩ := hcl
  rw [countFailures_map_false, hlen2] at hc1
  rw [show (initBreaker n tmo).failure_count = 0 from rfl] at hc1
  rw [show (initBreaker n tmo).failure_threshold = n from rfl] at ht1
  simp only [List.map_cons, List.map_nil]
  rw [show runCalls (runCalls (initBreaker n tmo) (l.map (fun t => (t, false))))
      [(t, false)] =
      ((runCalls (initBreaker n tmo) (l.map (fun t => (t, false)))).call t
        false).2 from rfl]
  rw [call_closed_failure _ t hs1]
  simp only [hc1, ht1]
  have hif : n ≤ 0 + (n - 1) + 1 := by omega
  simp [if_pos hif]
  omega

/-! ### Retry lemmas -/

/-- The geometric delay sequence shifts by one factor of the backoff. -/
theorem geom_shift (delay b : ℚ) (k : Nat) :
    (List.range (k + 1)).map (fun i => delay * b ^ i) =
      delay :: (List.range k).map (fun i => delay * b * b ^ i) := by
  rw [List.range_succ_eq_map, List.map_cons, List.map_map]
  simp only [pow_zero, mul_one]
  have hfun : ((fun i => delay * b ^ i) ∘ Nat.succ) =
      (fun i => delay * b * b ^ i) := by
    funext i
    simp only [Function.comp_apply, pow_succ]
    ring
  rw [hfun]

/-- Step equation: the current attempt returns. -/
theorem retryGo_ok_step {E A : Type} (f : Nat → Except E A)
    (attempt fuel : Nat) (delay b : ℚ) (a : A)
    (h : f attempt = Except.ok a) :
    retryGo f attempt fuel delay b =
      { result := Except.ok a, invocations := 1, sleeps := [] } := by
  unfold retryGo
  rw [h]

/-- Step equation: the current attempt raises with no retries left. -/
theorem retryGo_error_zero {E A : Type} (f : Nat → Except E A)
    (attempt : Nat) (delay b : ℚ) (e : E)
    (h : f attempt = Except.error e) :
    retryGo f attempt 0 delay b =
      { result := Except.error e, invocations := 1, sleeps := [] } := by
  unfold retryGo
  rw [h]

/-- Step equation: the current attempt raises and a retry follows after a
sleep of the current delay. -/
theorem retryGo_error_succ {E A : Type} (f : Nat → Except E A)
    (attempt fuel2 : Nat) (delay b : ℚ) (e : E)
    (h : f attempt = Except.error e) :
    retryGo f attempt (fuel2 + 1) delay b =
      { result := (retryGo f (attempt + 1) fuel2 (delay * b) b).result
        invocations := (retryGo f (attempt + 1) fuel2 (delay * b) b).invocations + 1
        sleeps := delay :: (retryGo f (attempt + 1) fuel2 (delay * b) b).sleeps } := by
  conv_lhs => rw [retryGo]
  rw [h]

/-- A behaviour failing on its first `k` attempts (counted from `attempt`)
and succeeding on the next one, with enough fuel left, yields exactly
`k + 1` invocations, the successful result, and `k` geometric sleeps. -/
theorem retryGo_fail_then_ok {E A : Type} (k : Nat) :
    ∀ (attempt fuel : Nat) (delay b : ℚ) (f : Nat → Except E A) (a : A),
      (∀ i, i < k → ∃ err, f (attempt + i) = Except.error err) →
      f (attempt + k) = Except.ok a →
      k ≤ fuel →
      retryGo f attempt fuel delay b =
        { result := Except.ok a, invocations := k + 1,
          sleeps := (List.range k).map (fun i => delay * b ^ i) } := by
  induction k with
  | zero =>
    intro attempt fuel delay b f a _hf hok _hle
    rw [show attempt + 0 = attempt from rfl] at hok
    rw [retryGo_ok_step f attempt fuel delay b a hok]
    simp
  | succ k ih =>
    intro attempt fuel delay b f a hf hok hle
    obtain ⟨err, herr⟩ := hf 0 (Nat.succ_pos k)
    rw [show attempt + 0 = attempt from rfl] at herr
    obtain ⟨fuel2, rfl⟩ : ∃ fuel2, fuel = fuel2 + 1 := ⟨fuel - 1, by omega⟩
    rw [retryGo_error_succ f attempt fuel2 delay b err herr]
    have hrec := ih (attempt + 1) fuel2 (delay * b) b f a
      (fun i hi => by
        have hx := hf (i + 1) (by omega)
        rwa [show attempt + (i + 1) = attempt + 1 + i from by omega] at hx)
      (by rwa [show attempt + 1 + k = attempt + (k + 1) from by omega])
      (by omega)
    rw [hrec, geom_shift]

/-- A behaviour failing on every allowed attempt yields the error of the
last attempt, `fuel + 1` invocations, and `fuel` geometric sleeps. -/
theorem retryGo_all_fail {E A : Type} (fuel : Nat) :
    ∀ (attempt : Nat) (delay b : ℚ) (f : Nat → Except E A) (err : Nat → E),
      (∀ i, i ≤ fuel → f (attempt + i) = Except.error (err (attempt + i))) →
      retryGo f attempt fuel delay b =
        { result := (Except.error (err (attempt + fuel)) : Except E A),
          invocations := fuel + 1,
          sleeps := (List.range fuel).map (fun i => delay * b ^ i) } := by
  induction fuel with
  | zero =>
    intro attempt delay b f err hf
    have h0 := hf 0 (Nat.le_refl 0)
    rw [show attempt + 0 = attempt from rfl] at h0
    rw [retryGo_error_zero f attempt delay b _ h0]
    simp
  | succ fuel ih =>
    intro attempt delay b f err hf
    have h0 := hf 0 (Nat.zero_le _)
    rw [show attempt + 0 = attempt from rfl] at h0
    rw [retryGo_error_succ f attempt fuel delay b _ h0]
    have hrec := ih (attempt + 1) (delay * b) b f err
      (fun i hi => by
        have hx := hf (i + 1) (by omega)
        rwa [show attempt + (i + 1) = attempt + 1 + i from by omega] at hx)
    rw [hrec, geom_shift,
      show attempt + 1 + fuel = attempt + (fuel + 1) from by omega]

/-- If the failure counter decreased across a call, that call was a
successful trial in the (possibly transient) HALF_OPEN state and the
counter was reset to 0. -/
theorem call_count_decrease (cb : CircuitBreaker) (now : ℚ) (o : Bool)
    (h : (cb.call now o).2.failure_count < cb.failure_count) :
    o = true ∧ (cb.call now o).2.failure_count = 0 ∧
      (cb.state = CircuitState.HALF_OPEN ∨
        (cb.state = CircuitState.OPEN ∧ shouldAttemptReset cb now = true)) := by
  by_cases hs : cb.state = CircuitState.OPEN
  · by_cases hr : shouldAttemptReset cb now
    · cases o
      · exfalso
        unfold CircuitBreaker.call at h
        simp [hs, hr] at h
        split at h <;> simp at h <;> omega
      · refine ⟨rfl, ?_, Or.inr ⟨hs, hr⟩⟩
        unfold CircuitBreaker.call
        simp [hs, hr]
    · exfalso
      unfold CircuitBreaker.call at h
      simp [hs, hr] at h
  · by_cases hh : cb.state = CircuitState.HALF_OPEN
    · cases o
      · exfalso
        unfold CircuitBreaker.call at h
        simp [hs, hh] at h
        split at h <;> simp at h <;> omega
      · refine ⟨rfl, ?_, Or.inl hh⟩
        unfold CircuitBreaker.call
        simp [hs, hh]
    · exfalso
      cases o
      · unfold CircuitBreaker.call at h
        simp [hs, hh] at h
        split at h <;> simp at h <;> omega
      · unfold CircuitBreaker.call at h
        simp [hs, hh] at h

/-- If every allowed attempt raises, the retry loop ends in an error. -/
theorem retryGo_result_error {E A : Type} (fuel : Nat) :
    ∀ (attempt : Nat) (delay b : ℚ) (f : Nat → Except E A),
      (∀ i, i ≤ fuel → ∃ e, f (attempt + i) = Except.error e) →
      ∃ e, (retryGo f attempt fuel delay b).result = Except.error e := by
  induction fuel with
  | zero =>
    intro attempt delay b f hf
    obtain ⟨e, he⟩ := hf 0 (Nat.le_refl 0)
    rw [show attempt + 0 = attempt from rfl] at he
    exact ⟨e, by rw [retryGo_error_zero f attempt delay b e he]⟩
  | succ fuel ih =>
    intro attempt delay b f hf
    obtain ⟨e, he⟩ := hf 0 (Nat.zero_le _)
    rw [show attempt + 0 = attempt from rfl] at he
    obtain ⟨e2, he2⟩ := ih (attempt + 1) (delay * b) b f
      (fun i hi => by
        obtain ⟨e3, he3⟩ := hf (i + 1) (by omega)
        exact ⟨e3, by
          rwa [show attempt + 1 + i = attempt + (i + 1) from by omega]⟩)
    exact ⟨e2, by rw [retryGo_error_succ f attempt fuel delay b e he]; exact he2⟩

/-! ### Claim theorems: resilience layer -/

/-- C2: the circuit breaker state machine: after `failure_threshold`
consecutive failures the circuit is OPEN; while OPEN and before `timeout`
has elapsed since the last failure, every call is rejected without invoking
the wrapped function and the state is untouched; the first call after the
cooldown executes as a HALF_OPEN trial; a successful trial resets the
counter to 0, clears the failure time and closes the circuit; a failing
trial increments the counter and reopens with a fresh failure time (the
counter hypothesis of the HALF_OPEN clauses holds in every reachable
non-CLOSED breaker, as the sixth conjunct shows). -/
theorem claim_C2_circuit_breaker_state_machine :
    (∀ (cb : CircuitBreaker) (now tl : ℚ) (o : Bool),
        cb.state = CircuitState.OPEN →
        cb.last_failure_time = some tl →
        now - tl < cb.timeout →
        cb.call now o = (CallResult.rejected, cb)) ∧
    (∀ (cb : CircuitBreaker) (now tl : ℚ),
        cb.state = CircuitState.OPEN →
        cb.last_failure_time = some tl →
        cb.timeout ≤ now - tl →
        cb.call now true =
          (CallResult.succeeded,
            { cb with
                state := CircuitState.CLOSED
                failure_count := 0
                last_failure_time := none })) ∧
    (∀ (cb : CircuitBreaker) (now tl : ℚ),
        cb.state = CircuitState.OPEN →
        cb.last_failure_time = some tl →
        cb.timeout ≤ now - tl →
        cb.failure_threshold ≤ cb.failure_count →
        cb.call now false =
          (CallResult.failed,
            { cb with
                state := CircuitState.OPEN
                failure_count := cb.failure_count + 1
                last_failure_time := some now })) ∧
    (∀ (cb : CircuitBreaker) (now : ℚ),
        cb.state = CircuitState.HALF_OPEN →
        cb.call now true =
          (CallResult.succeeded,
            { cb with
                state := CircuitState.CLOSED
                failure_count := 0
                last_failure_time := none })) ∧
    (∀ (cb : CircuitBreaker) (now : ℚ),
        cb.state = CircuitState.HALF_OPEN →
        cb.failure_threshold ≤ cb.failure_count →
        cb.call now false =
          (CallResult.failed,
            { cb with
                state := CircuitState.OPEN
                failure_count := cb.failure_count + 1
                last_failure_time := some now })) ∧
    (∀ cb : CircuitBreaker, ReachableBreaker cb →
        cb.state ≠ CircuitState.CLOSED →
        cb.failure_threshold ≤ cb.failure_count) ∧
    (∀ (n : Nat) (tmo : ℚ) (ts : List ℚ),
        1 ≤ n → ts.length = n →
        (runCalls (initBreaker n tmo) (ts.map (fun t => (t, false)))).state
          = CircuitState.OPEN) :=
  ⟨fun cb now tl o => call_open_rejected cb now tl o,
    fun cb now tl => call_open_reset_success cb now tl,
    fun cb now tl => call_open_reset_failure cb now tl,
    fun cb now => call_halfopen_success cb now,
    fun cb now => call_halfopen_failure cb now,
    fun cb hreach => reachable_inv cb hreach,
    fun n tmo ts hn hlen =>
      (fresh_consecutive_failures_open n tmo ts hn hlen).1⟩

/-- A concrete OPEN breaker (threshold 3, cooldown 60s, 3 recorded
failures, last failure at time 0). -/
def cbOpenEx : CircuitBreaker :=
  { failure_threshold := 3, timeout := 60, failure_count := 3,
    last_failure_time := some 0, state := CircuitState.OPEN }

/-- The same configuration in the HALF_OPEN state. -/
def cbHalfEx : CircuitBreaker :=
  { failure_threshold := 3, timeout := 60, failure_count := 3,
    last_failure_time := some 0, state := CircuitState.HALF_OPEN }

/-- Witness for C2 at concrete breakers: rejection at t=10, half-open
execution at t=100, both trial outcomes, the reachable-breaker counter
bound, and a threshold-2 breaker opening after 2 failures. -/
theorem claim_C2_circuit_breaker_state_machine_witness :
    cbOpenEx.call 10 true = (CallResult.rejected, cbOpenEx) ∧
    cbOpenEx.call 100 true =
      (CallResult.succeeded,
        { cbOpenEx with
            state := CircuitState.CLOSED
            failure_count := 0
            last_failure_time := none }) ∧
    cbOpenEx.call 100 false =
      (CallResult.failed,
        { cbOpenEx with
            state := CircuitState.OPEN
            failure_count := cbOpenEx.failure_count + 1
            last_failure_time := some 100 }) ∧
    cbHalfEx.call 100 true =
      (CallResult.succeeded,
        { cbHalfEx with
            state := CircuitState.CLOSED
            failure_count := 0
            last_failure_time := none }) ∧
    cbHalfEx.call 100 false =
      (CallResult.failed,
        { cbHalfEx with
            state := CircuitState.OPEN
            failure_count := cbHalfEx.failure_count + 1
            last_failure_time := some 100 }) ∧
    1 ≤ (runCalls (initBreaker 1 60) [(0, false)]).failure_count ∧
    (runCalls (initBreaker 2 60) [(0, false), (1, false)]).state
      = CircuitState.OPEN := by
  obtain ⟨h1, h2, h3, h4, h5, h6, h7⟩ := claim_C2_circuit_breaker_state_machine
  refine ⟨h1 cbOpenEx 10 0 true rfl rfl (by norm_num [cbOpenEx]),
    h2 cbOpenEx 100 0 rfl rfl (by norm_num [cbOpenEx]),
    h3 cbOpenEx 100 0 rfl rfl (by norm_num [cbOpenEx]) (by norm_num [cbOpenEx]),
    h4 cbHalfEx 100 rfl,
    h5 cbHalfEx 100 rfl (by norm_num [cbHalfEx]),
    ?_,
    h7 2 60 [0, 1] (by norm_num) rfl⟩
  have hx := h6 (runCalls (initBreaker 1 60) [(0, false)])
    ⟨1, 60, [(0, false)], rfl⟩ (by decide)
  have ht : (runCalls (initBreaker 1 60) [(0, false)]).failure_threshold
      = 1 := rfl
  omega

/-- C10: a successful call through a CLOSED breaker changes nothing (in
particular `failure_count` and `last_failure_time` are untouched); the
counter is reset only by a successful HALF_OPEN trial; hence failures
accumulate across interleaved successes while CLOSED, and the breaker opens
once `failure_threshold` failures have accumulated since the last reset
even when they are not consecutive. -/
theorem claim_C10_closed_frame_and_accumulation :
    (∀ (cb : CircuitBreaker) (now : ℚ),
        cb.state = CircuitState.CLOSED →
        cb.call now true = (CallResult.succeeded, cb)) ∧
    (∀ (cb : CircuitBreaker) (now : ℚ) (o : Bool),
        (cb.call now o).2.failure_count < cb.failure_count →
        o = true ∧ (cb.call now o).2.failure_count = 0 ∧
          (cb.state = CircuitState.HALF_OPEN ∨
            (cb.state = CircuitState.OPEN ∧
              shouldAttemptReset cb now = true))) ∧
    (∀ (calls : List (ℚ × Bool)) (cb : CircuitBreaker),
        cb.state = CircuitState.CLOSED →
        cb.failure_count + countFailures calls < cb.failure_threshold →
        (runCalls cb calls).state = CircuitState.CLOSED ∧
          (runCalls cb calls).failure_count
            = cb.failure_count + countFailures calls) ∧
    (∀ (calls : List (ℚ × Bool)) (cb : CircuitBreaker) (now : ℚ),
        cb.state = CircuitState.CLOSED →
        cb.failure_count + countFailures calls + 1 = cb.failure_threshold →
        ((runCalls cb calls).call now false).2.state = CircuitState.OPEN) := by
  refine ⟨fun cb now hs => call_closed_success cb now hs,
    fun cb now o h => call_count_decrease cb now o h,
    fun calls cb hs hlt =>
      ⟨(runCalls_closed calls cb hs hlt).1, (runCalls_closed calls cb hs hlt).2.1⟩,
    fun calls cb now hs heq => ?_⟩
  obtain ⟨h1, h2, h3⟩ := runCalls_closed calls cb hs (by omega)
  rw [call_closed_failure _ now h1]
  simp only [h2, h3]
  rw [if_pos (by omega)]

/-- A concrete CLOSED breaker with 2 accumulated failures
(threshold 5, cooldown 60s). -/
def cbClosedEx : CircuitBreaker :=
  { failure_threshold := 5, timeout := 60, failure_count := 2,
    last_failure_time := some 0, state := CircuitState.CLOSED }

/-- Witness for C10: a success at t=1 leaves `cbClosedEx` untouched; the
HALF_OPEN trial success resets the counter; a mixed trace adds only its
failures; and one more failure after 2 interleaved ones opens the
threshold-5 breaker. -/
theorem claim_C10_closed_frame_and_accumulation_witness :
    cbClosedEx.call 1 true = (CallResult.succeeded, cbClosedEx) ∧
    (cbHalfEx.call 100 true).2.failure_count = 0 ∧
    (runCalls cbClosedEx [(0, true), (1, false), (2, true)]).failure_count
      = 3 ∧
    ((runCalls cbClosedEx [(0, false), (1, true), (2, false)]).call 3
        false).2.state = CircuitState.OPEN := by
  obtain ⟨h1, h2, h3, h4⟩ := claim_C10_closed_frame_and_accumulation
  refine ⟨h1 cbClosedEx 1 rfl,
    (h2 cbHalfEx 100 true (by decide)).2.1,
    ?_,
    h4 [(0, false), (1, true), (2, false)] cbClosedEx 3 rfl (by decide)⟩
  have hx := (h3 [(0, true), (1, false), (2, true)] cbClosedEx rfl
    (by decide)).2
  simpa using hx

/-- C4: the retry combinator invokes a function failing its first `k`
attempts (with `k < max_retries + 1`) and then succeeding exactly `k + 1`
times, with the sleeps between attempts forming the geometric sequence
`initial_delay * backoff_factor ^ (attempt - 1)` and no sleep before the
first attempt; a function failing all `max_retries + 1` attempts is
invoked exactly that many times and the exception of the last attempt
propagates unchanged. -/
theorem claim_C4_retry_backoff :
    (∀ (E A : Type) (f : Nat → Except E A) (a : A) (k max_retries : Nat)
        (initial_delay backoff_factor : ℚ),
        k < max_retries + 1 →
        (∀ i, 1 ≤ i → i ≤ k → ∃ err, f i = Except.error err) →
        f (k + 1) = Except.ok a →
        retry_with_backoff f max_retries initial_delay backoff_factor =
          { result := Except.ok a, invocations := k + 1,
            sleeps := (List.range k).map
              (fun i => initial_delay * backoff_factor ^ i) }) ∧
    (∀ (E A : Type) (f : Nat → Except E A) (err : Nat → E)
        (max_retries : Nat) (initial_delay backoff_factor : ℚ),
        (∀ i, 1 ≤ i → i ≤ max_retries + 1 → f i = Except.error (err i)) →
        retry_with_backoff f max_retries initial_delay backoff_factor =
          { result := Except.error (err (max_retries + 1)),
            invocations := max_retries + 1,
            sleeps := (List.range max_retries).map
              (fun i => initial_delay * backoff_factor ^ i) }) := by
  constructor
  · intro E A f a k mr d b hk hf hok
    unfold retry_with_backoff
    exact retryGo_fail_then_ok k 1 mr d b f a
      (fun i hi => by
        obtain ⟨err, herr⟩ := hf (i + 1) (by omega) (by omega)
        exact ⟨err, by rwa [show 1 + i = i + 1 from by omega]⟩)
      (by rwa [show 1 + k = k + 1 from by omega])
      (by omega)
  · intro E A f err mr d b hf
    unfold retry_with_backoff
    have hx := retryGo_all_fail mr 1 d b f err
      (fun i hi => by
        have hy := hf (i + 1) (by omega) (by omega)
        rwa [show 1 + i = i + 1 from by omega])
    rwa [show 1 + mr = mr + 1 from by omega] at hx

/-- A behaviour that raises on its first attempt only. -/
def retryOkF : Nat → Except Nat Nat :=
  fun i => if i = 1 then Except.error 7 else Except.ok 5

/-- A behaviour that raises on every attempt, with the attempt index as
the exception payload. -/
def retryFailF : Nat → Except Nat Unit :=
  fun i => Except.error i

/-- Witness for C4: one failure then success gives 2 invocations and one
1-second sleep; three all-failing attempts (max_retries = 2) give 3
invocations, sleeps [1, 2], and the third attempt's exception. -/
theorem claim_C4_retry_backoff_witness :
    retry_with_backoff retryOkF 3 1 2 =
      { result := Except.ok 5, invocations := 2,
        sleeps := (List.range 1).map (fun i => (1 : ℚ) * 2 ^ i) } ∧
    retry_with_backoff retryFailF 2 1 2 =
      { result := Except.error 3, invocations := 3,
        sleeps := (List.range 2).map (fun i => (1 : ℚ) * 2 ^ i) } := by
  obtain ⟨h1, h2⟩ := claim_C4_retry_backoff
  refine ⟨h1 Nat Nat retryOkF 5 1 3 1 2 (by omega) ?_ rfl,
    h2 Nat Unit retryFailF (fun i => i) 2 1 2 (fun i h1 h2 => rfl)⟩
  intro i hi1 hi2
  have hie : i = 1 := by omega
  subst hie
  exact ⟨7, rfl⟩

/-- A fresh CLOSED breaker with threshold 5 and cooldown 60s, as built by
`with_circuit_breaker` at decoration time. -/
def cbFreshEx : CircuitBreaker :=
  { failure_threshold := 5, timeout := 60, failure_count := 0,
    last_failure_time := none, state := CircuitState.CLOSED }

/-- C3 counterexample: a logical operation with `max_retries = 3` whose 4
attempts all fail performs 4 failed invocations, yet the breaker's
failure counter rises by exactly 1 — not by the number of failed attempts
(neither 3 nor 4). -/
theorem claim_C3_counterexample :
    (retry_with_backoff retryFailF 3 1 2).invocations = 4 ∧
    (retry_with_backoff retryFailF 3 1 2).result = Except.error 4 ∧
    cbFreshEx.failure_count = 0 ∧
    (composedCall cbFreshEx 0 retryFailF 3 1 2).2.failure_count = 1 ∧
    (composedCall cbFreshEx 0 retryFailF 3 1 2).2.failure_count ≠ 3 ∧
    (composedCall cbFreshEx 0 retryFailF 3 1 2).2.failure_count ≠ 4 := by
  refine ⟨rfl, rfl, rfl, rfl, by decide, by decide⟩

/-- C3 amended: because the retry combinator runs inside the circuit
breaker (`@with_circuit_breaker` is the outer decorator), the breaker
observes one outcome per logical operation: a CLOSED breaker's failure
counter rises by exactly 1 — regardless of `max_retries` — when every
attempt of the wrapped operation fails. -/
theorem claim_C3_amended_one_failure_per_operation :
    ∀ (E A : Type) (cb : CircuitBreaker) (now : ℚ) (f : Nat → Except E A)
      (max_retries : Nat) (initial_delay backoff_factor : ℚ),
      cb.state = CircuitState.CLOSED →
      (∀ i, 1 ≤ i → i ≤ max_retries + 1 → ∃ e, f i = Except.error e) →
      (composedCall cb now f max_retries initial_delay
          backoff_factor).2.failure_count = cb.failure_count + 1 := by
  intro E A cb now f mr d b hs hf
  obtain ⟨e, he⟩ := retryGo_result_error mr 1 d b f
    (fun i hi => by
      obtain ⟨e2, he2⟩ := hf (1 + i) (by omega) (by omega)
      exact ⟨e2, he2⟩)
  unfold composedCall retry_with_backoff
  rw [he]
  rw [call_closed_failure cb now hs]

/-- Witness for the amended C3 at the concrete fresh breaker and the
always-failing behaviour. -/
theorem claim_C3_amended_one_failure_per_operation_witness :
    (composedCall cbFreshEx 0 retryFailF 3 1 2).2.failure_count
      = cbFreshEx.failure_count + 1 :=
  claim_C3_amended_one_failure_per_operation Nat Unit cbFreshEx 0 retryFailF
    3 1 2 rfl (fun i h1 h2 => ⟨i, rfl⟩)

/-! ## Evaluation domain logic (app/domain/evaluation_logic.py) -/

/-- Evaluator relationship kinds (DB-constrained vocabulary). -/
inductive RelKind where
  | self
  | manager
  | peer
  | direct_report
deriving DecidableEq, Repr

/-- `CompetencyScore` domain value object (comments omitted). -/
structure CompetencyScore where
  skill_id : Nat
  score : ℚ
deriving DecidableEq, Repr

/-- `EvaluationEntity` domain entity, restricted to the fields the domain
logic reads. -/
structure EvaluationEntity where
  evaluator_relationship : RelKind
  status : String
  competency_scores : List CompetencyScore
deriving DecidableEq, Repr

/-- `EvaluationEntity.is_submitted`. -/
def EvaluationEntity.is_submitted (e : EvaluationEntity) : Bool :=
  e.status = "submitted"

/-- The `counts` dictionary of `is_cycle_complete_for_user`. -/
structure RelCounts where
  selfCount : Nat
  managerCount : Nat
  peerCount : Nat
  directReportCount : Nat
deriving DecidableEq, Repr

/-- One iteration of the counting loop: submitted evaluations bump their
relationship's counter. -/
def tallyEval (cs : RelCounts) (e : EvaluationEntity) : RelCounts :=
  if e.is_submitted then
    match e.evaluator_relationship with
    | RelKind.self => { cs with selfCount := cs.selfCount + 1 }
    | RelKind.manager => { cs with managerCount := cs.managerCount + 1 }
    | RelKind.peer => { cs with peerCount := cs.peerCount + 1 }
    | RelKind.direct_report =>
      { cs with directReportCount := cs.directReportCount + 1 }
  else
    cs

/-- The counting loop of `is_cycle_complete_for_user`. -/
def countByRel (evals : List EvaluationEntity) : RelCounts :=
  evals.foldl tallyEval
    { selfCount := 0, managerCount := 0, peerCount := 0,
      directReportCount := 0 }

/-- The `missing_parts` list of `is_cycle_complete_for_user`. -/
def missingParts (evals : List EvaluationEntity)
    (min_peers min_direct_reports : Nat) : List String :=
  let counts := countByRel evals
  (if counts.selfCount < 1 then ["self-evaluation"] else []) ++
    (if counts.managerCount < 1 then ["manager evaluation"] else []) ++
    (if counts.peerCount < min_peers then
      ["at least " ++ toString min_peers ++ " peer evaluations (has "
        ++ toString counts.peerCount ++ ")"]
    else []) ++
    (if counts.directReportCount < min_direct_reports then
      ["at least " ++ toString min_direct_reports
        ++ " direct report evaluations (has "
        ++ toString counts.directReportCount ++ ")"]
    else [])

/-- `is_cycle_complete_for_user(evaluations, min_peers,
min_direct_reports)`. -/
def is_cycle_complete_for_user (evals : List EvaluationEntity)
    (min_peers min_direct_reports : Nat) : Bool × Option String :=
  let parts := missingParts evals min_peers min_direct_reports
  if parts.isEmpty then
    (true, none)
  else
    (false, some ("Missing: " ++ String.intercalate ", " parts))

/-- Declarative count of submitted evaluations of one relationship kind. -/
def submittedOfRel (evals : List EvaluationEntity) (r : RelKind) : Nat :=
  (evals.filter
    (fun e => e.is_submitted && e.evaluator_relationship = r)).length

/-- The counting loop computes, for each kind, the number of submitted
evaluations of that kind. -/
theorem countByRel_go (evals : List EvaluationEntity) :
    ∀ acc : RelCounts,
      evals.foldl tallyEval acc =
        { selfCount := acc.selfCount + submittedOfRel evals RelKind.self
          managerCount :=
            acc.managerCount + submittedOfRel evals RelKind.manager
          peerCount := acc.peerCount + submittedOfRel evals RelKind.peer
          directReportCount :=
            acc.directReportCount
              + submittedOfRel evals RelKind.direct_report } := by
  induction evals with
  | nil =>
    intro acc
    simp [submittedOfRel]
  | cons e rest ih =>
    intro acc
    rw [List.foldl_cons, ih]
    by_cases hsub : e.is_submitted
    · cases hrel : e.evaluator_relationship <;>
        simp [tallyEval, submittedOfRel, List.filter, hsub, hrel,
          RelCounts.mk.injEq] <;>
          omega
    · simp [tallyEval, submittedOfRel, List.filter, hsub]

/-- `countByRel` in terms of the declarative counts. -/
theorem countByRel_spec (evals : List EvaluationEntity) :
    countByRel evals =
      { selfCount := submittedOfRel evals RelKind.self
        managerCount := submittedOfRel evals RelKind.manager
        peerCount := submittedOfRel evals RelKind.peer
        directReportCount := submittedOfRel evals RelKind.direct_report } := by
  unfold countByRel
  rw [countByRel_go]
  simp

/-- Non-submitted evaluations are invisible to the per-kind counts. -/
theorem submittedOfRel_filter (evals : List EvaluationEntity) (r : RelKind) :
    submittedOfRel (evals.filter (fun e => e.is_submitted)) r
      = submittedOfRel evals r := by
  unfold submittedOfRel
  rw [← List.countP_eq_length_filter, ← List.countP_eq_length_filter,
    List.countP_filter]
  apply List.countP_congr
  intro e _
  cases hs : e.is_submitted <;> simp [hs]

/-- Modelled on the spec's wording: the reason lists, in a fixed order, one
message per missing category (self, manager, peer with its threshold,
direct report with its threshold). -/
def specMissingMessages (nself nmanager npeer ndr mp mdr : Nat) :
    List String :=
  (if nself < 1 then ["self-evaluation"] else []) ++
    (if nmanager < 1 then ["manager evaluation"] else []) ++
    (if npeer < mp then
      ["at least " ++ toString mp ++ " peer evaluations (has "
        ++ toString npeer ++ ")"]
    else []) ++
    (if ndr < mdr then
      ["at least " ++ toString mdr ++ " direct report evaluations (has "
        ++ toString ndr ++ ")"]
    else [])

/-- The code's `missing_parts` equals the spec-side message list applied to
the declarative submitted-by-kind counts. -/
theorem missingParts_eq_spec (evals : List EvaluationEntity)
    (mp mdr : Nat) :
    missingParts evals mp mdr =
      specMissingMessages (submittedOfRel evals RelKind.self)
        (submittedOfRel evals RelKind.manager)
        (submittedOfRel evals RelKind.peer)
        (submittedOfRel evals RelKind.direct_report) mp mdr := by
  unfold missingParts specMissingMessages
  rw [countByRel_spec]

/-- C6: only submitted evaluations count, by relationship kind; the check
returns `(True, None)` exactly when there are at least 1 self, 1 manager,
`min_peers` peer and `min_direct_reports` direct-report submitted
evaluations; otherwise it returns `(False, reason)` where the reason is the
"Missing: " text listing one message per missing category; and filtering
out non-submitted evaluations does not change the outcome. -/
theorem claim_C6_cycle_completion :
    ∀ (evals : List EvaluationEntity) (min_peers min_direct_reports : Nat),
      (is_cycle_complete_for_user evals min_peers min_direct_reports
          = (true, none) ↔
        (1 ≤ submittedOfRel evals RelKind.self ∧
          1 ≤ submittedOfRel evals RelKind.manager ∧
          min_peers ≤ submittedOfRel evals RelKind.peer ∧
          min_direct_reports
            ≤ submittedOfRel evals RelKind.direct_report)) ∧
      (¬ (1 ≤ submittedOfRel evals RelKind.self ∧
          1 ≤ submittedOfRel evals RelKind.manager ∧
          min_peers ≤ submittedOfRel evals RelKind.peer ∧
          min_direct_reports
            ≤ submittedOfRel evals RelKind.direct_report) →
        is_cycle_complete_for_user evals min_peers min_direct_reports
          = (false, some ("Missing: " ++ String.intercalate ", "
              (specMissingMessages (submittedOfRel evals RelKind.self)
                (submittedOfRel evals RelKind.manager)
                (submittedOfRel evals RelKind.peer)
                (submittedOfRel evals RelKind.direct_report)
                min_peers min_direct_reports)))) ∧
      is_cycle_complete_for_user (evals.filter (fun e => e.is_submitted))
          min_peers min_direct_reports
        = is_cycle_complete_for_user evals min_peers min_direct_reports := by
  intro evals mp mdr
  refine ⟨?_, ?_, ?_⟩
  · unfold is_cycle_complete_for_user
    rw [missingParts_eq_spec]
    unfold specMissingMessages
    by_cases h1 : submittedOfRel evals RelKind.self < 1 <;>
      by_cases h2 : submittedOfRel evals RelKind.manager < 1 <;>
        by_cases h3 : submittedOfRel evals RelKind.peer < mp <;>
          by_cases h4 : submittedOfRel evals RelKind.direct_report < mdr <;>
            simp [h1, h2, h3, h4] <;> omega
  · intro hmiss
    unfold is_cycle_complete_for_user
    rw [missingParts_eq_spec]
    have hne : ¬ (specMissingMessages (submittedOfRel evals RelKind.self)
        (submittedOfRel evals RelKind.manager)
        (submittedOfRel evals RelKind.peer)
        (submittedOfRel evals RelKind.direct_report) mp mdr).isEmpty := by
      unfold specMissingMessages
      by_cases h1 : submittedOfRel evals RelKind.self < 1 <;>
        by_cases h2 : submittedOfRel evals RelKind.manager < 1 <;>
          by_cases h3 : submittedOfRel evals RelKind.peer < mp <;>
            by_cases h4 :
                submittedOfRel evals RelKind.direct_report < mdr <;>
              simp [h1, h2, h3, h4] <;> omega
    simp [hne]
  · unfold is_cycle_complete_for_user
    rw [missingParts_eq_spec, missingParts_eq_spec,
      submittedOfRel_filter, submittedOfRel_filter,
      submittedOfRel_filter, submittedOfRel_filter]

/-- A submitted self-evaluation with no scores. -/
def evSelfEx : EvaluationEntity :=
  { evaluator_relationship := RelKind.self, status := "submitted",
    competency_scores := [] }

/-- A submitted manager evaluation with no scores. -/
def evManagerEx : EvaluationEntity :=
  { evaluator_relationship := RelKind.manager, status := "submitted",
    competency_scores := [] }

/-- A pending (not submitted) peer evaluation. -/
def evPeerPendingEx : EvaluationEntity :=
  { evaluator_relationship := RelKind.peer, status := "pending",
    competency_scores := [] }

/-- A submitted peer evaluation with no scores. -/
def evPeerEx : EvaluationEntity :=
  { evaluator_relationship := RelKind.peer, status := "submitted",
    competency_scores := [] }

/-- Witness for C6: with a pending peer evaluation only, the check fails and
names the missing peer threshold; with two submitted peers it passes. -/
theorem claim_C6_cycle_completion_witness :
    is_cycle_complete_for_user [evSelfEx, evManagerEx, evPeerPendingEx] 2 0
      = (false, some "Missing: at least 2 peer evaluations (has 0)") ∧
    is_cycle_complete_for_user [evSelfEx, evManagerEx, evPeerEx, evPeerEx]
      2 0 = (true, none) := by
  constructor
  · have h := (claim_C6_cycle_completion
      [evSelfEx, evManagerEx, evPeerPendingEx] 2 0).2.1 (by decide)
    rw [h]
    decide
  · exact (claim_C6_cycle_completion
      [evSelfEx, evManagerEx, evPeerEx, evPeerEx] 2 0).1.mpr (by decide)

/-! ## Score aggregation (aggregate_competency_scores) -/

/-- The per-relationship score lists of one skill
(`scores_by_skill[skill_id]`). -/
structure RelScores where
  self_scores : List ℚ
  peer_scores : List ℚ
  manager_scores : List ℚ
  direct_report_scores : List ℚ
deriving DecidableEq, Repr

/-- The fresh inner dictionary `{self: [], peer: [], manager: [],
direct_report: []}`. -/
def emptyRelScores : RelScores :=
  { self_scores := [], peer_scores := [], manager_scores := [],
    direct_report_scores := [] }

/-- `scores_by_skill[skill_id][rel].append(score)`. -/
def RelScores.addScore (rs : RelScores) (r : RelKind) (s : ℚ) : RelScores :=
  match r with
  | RelKind.self => { rs with self_scores := rs.self_scores ++ [s] }
  | RelKind.peer => { rs with peer_scores := rs.peer_scores ++ [s] }
  | RelKind.manager =>
    { rs with manager_scores := rs.manager_scores ++ [s] }
  | RelKind.direct_report =>
    { rs with direct_report_scores := rs.direct_report_scores ++ [s] }

/-- Project the list of one relationship kind. -/
def RelScores.get (rs : RelScores) (r : RelKind) : List ℚ :=
  match r with
  | RelKind.self => rs.self_scores
  | RelKind.peer => rs.peer_scores
  | RelKind.manager => rs.manager_scores
  | RelKind.direct_report => rs.direct_report_scores

/-- Insert-or-append into the insertion-ordered `scores_by_skill`
dictionary, creating the empty inner dictionary on first sight of a
skill. -/
def assocAdd (acc : List (Nat × RelScores)) (skill : Nat) (r : RelKind)
    (s : ℚ) : List (Nat × RelScores) :=
  match acc with
  | [] => [(skill, RelScores.addScore emptyRelScores r s)]
  | (k, rs) :: rest =>
    if k = skill then
      (k, rs.addScore r s) :: rest
    else
      (k, rs) :: assocAdd rest skill r s

/-- The collection loop of `aggregate_competency_scores`: submitted
evaluations contribute each of their competency scores to
`scores_by_skill`. -/
def collectScores (evals : List EvaluationEntity) :
    List (Nat × RelScores) :=
  evals.foldl
    (fun acc e =>
      if e.is_submitted then
        e.competency_scores.foldl
          (fun acc2 cs =>
            assocAdd acc2 cs.skill_id e.evaluator_relationship cs.score)
          acc
      else acc)
    []

/-- One aggregated entry of the result dictionary (the `raw_stats` blob
repeats the same lists, counts and averages and is not modelled
separately). -/
structure SkillAgg where
  overall_avg : ℚ
  self_avg : Option ℚ
  peer_avg : Option ℚ
  manager_avg : Option ℚ
  direct_report_avg : Option ℚ
  n_self : Nat
  n_peer : Nat
  n_manager : Nat
  n_direct_report : Nat
  confidence : ℚ
deriving DecidableEq, Repr

/-- `sum(xs) / len(xs) if xs else None`. -/
def meanOpt (l : List ℚ) : Option ℚ :=
  if l.isEmpty then none else some (l.sum / l.length)

/-- The per-skill aggregation body of `aggregate_competency_scores`. -/
def aggregateEntry (rs : RelScores) : SkillAgg :=
  let all_scores := rs.self_scores ++ rs.peer_scores ++ rs.manager_scores
    ++ rs.direct_report_scores
  { overall_avg :=
      if all_scores.isEmpty then 0 else all_scores.sum / all_scores.length
    self_avg := meanOpt rs.self_scores
    peer_avg := meanOpt rs.peer_scores
    manager_avg := meanOpt rs.manager_scores
    direct_report_avg := meanOpt rs.direct_report_scores
    n_self := rs.self_scores.length
    n_peer := rs.peer_scores.length
    n_manager := rs.manager_scores.length
    n_direct_report := rs.direct_report_scores.length
    confidence :=
      if 5 ≤ all_scores.length then 9/10
      else if 3 ≤ all_scores.length then 7/10
      else if 1 ≤ all_scores.length then 1/2
      else 0 }

/-- `aggregate_competency_scores(evaluations)` as an insertion-ordered
dictionary. -/
def aggregate_competency_scores (evals : List EvaluationEntity) :
    List (Nat × SkillAgg) :=
  (collectScores evals).map (fun p => (p.1, aggregateEntry p.2))

/-- Lookup in an insertion-ordered dictionary with `Nat` keys. -/
def lookupKey {α : Type} (l : List (Nat × α)) (k : Nat) : Option α :=
  match l with
  | [] => none
  | (k2, v) :: rest => if k2 = k then some v else lookupKey rest k

/-- The per-kind score list recorded for a skill, empty when the skill is
absent. -/
def lookupRelList (acc : List (Nat × RelScores)) (skill : Nat)
    (r : RelKind) : List ℚ :=
  match lookupKey acc skill with
  | none => []
  | some rs => rs.get r

/-- Declaratively: the scores that submitted evaluations of kind `r`
assign to `skill`, in evaluation order then score order. -/
def scoresFor (evals : List EvaluationEntity) (skill : Nat) (r : RelKind) :
    List ℚ :=
  (evals.filter (fun e => e.is_submitted)).flatMap
    (fun e =>
      if e.evaluator_relationship = r then
        (e.competency_scores.filter
          (fun cs => cs.skill_id = skill)).map (fun cs => cs.score)
      else [])

/-- `addScore` appends to exactly the targeted kind's list. -/
theorem RelScores.get_addScore (rs : RelScores) (r r2 : RelKind) (s : ℚ) :
    (rs.addScore r s).get r2
      = rs.get r2 ++ (if r2 = r then [s] else []) := by
  cases r <;> cases r2 <;>
    simp [RelScores.addScore, RelScores.get]

/-- The fresh inner dictionary has only empty lists. -/
theorem RelScores.get_empty (r : RelKind) : emptyRelScores.get r = [] := by
  cases r <;> rfl

/-- Lookup ignores an entry with a different key. -/
theorem lookupRelList_cons_ne (k : Nat) (rs : RelScores)
    (rest : List (Nat × RelScores)) (skill : Nat) (r2 : RelKind)
    (h : ¬ k = skill) :
    lookupRelList ((k, rs) :: rest) skill r2
      = lookupRelList rest skill r2 := by
  simp [lookupRelList, lookupKey, h]

/-- Lookup finds the first entry with a matching key. -/
theorem lookupRelList_cons_eq (rs : RelScores)
    (rest : List (Nat × RelScores)) (skill : Nat) (r2 : RelKind) :
    lookupRelList ((skill, rs) :: rest) skill r2 = rs.get r2 := by
  simp [lookupRelList, lookupKey]

/-- Lookup in the empty dictionary. -/
theorem lookupRelList_nil (skill : Nat) (r2 : RelKind) :
    lookupRelList [] skill r2 = [] := rfl

/-- `assocAdd` appends the score to exactly the targeted skill and kind. -/
theorem lookupRelList_assocAdd (sk : Nat) (r : RelKind) (s : ℚ) :
    ∀ (acc : List (Nat × RelScores)) (skill : Nat) (r2 : RelKind),
      lookupRelList (assocAdd acc sk r s) skill r2
        = lookupRelList acc skill r2
            ++ (if skill = sk ∧ r2 = r then [s] else []) := by
  intro acc
  induction acc with
  | nil =>
    intro skill r2
    by_cases hk : skill = sk
    · subst hk
      rw [show assocAdd [] skill r s
          = [(skill, RelScores.addScore emptyRelScores r s)] from rfl]
      rw [lookupRelList_cons_eq, RelScores.get_addScore,
        RelScores.get_empty, lookupRelList_nil]
      simp
    · rw [show assocAdd [] sk r s
          = [(sk, RelScores.addScore emptyRelScores r s)] from rfl]
      rw [lookupRelList_cons_ne _ _ _ _ _ (fun h => hk (Eq.symm h))]
      simp [hk]
  | cons p rest ih =>
    intro skill r2
    obtain ⟨k, rs⟩ := p
    by_cases hks : k = sk
    · subst hks
      rw [show assocAdd ((k, rs) :: rest) k r s
          = (k, rs.addScore r s) :: rest from by simp [assocAdd]]
      by_cases hsk : k = skill
      · subst hsk
        rw [lookupRelList_cons_eq, lookupRelList_cons_eq,
          RelScores.get_addScore]
        simp
      · rw [lookupRelList_cons_ne _ _ _ _ _ hsk,
          lookupRelList_cons_ne _ _ _ _ _ hsk]
        have hcond : ¬ (skill = k ∧ r2 = r) :=
          fun hc => hsk (Eq.symm hc.1)
        simp [hcond]
    · rw [show assocAdd ((k, rs) :: rest) sk r s
          = (k, rs) :: assocAdd rest sk r s from by simp [assocAdd, hks]]
      by_cases hsk : k = skill
      · subst hsk
        rw [lookupRelList_cons_eq, lookupRelList_cons_eq]
        have hcond : ¬ (k = sk ∧ r2 = r) := fun hc => hks hc.1
        simp [hcond]
      · rw [lookupRelList_cons_ne _ _ _ _ _ hsk,
          lookupRelList_cons_ne _ _ _ _ _ hsk, ih]

/-- Folding one evaluation's competency scores contributes, for each skill
and kind, exactly that evaluation's matching scores in order. -/
theorem lookupRelList_comp_fold (rel : RelKind) :
    ∀ (comps : List CompetencyScore) (acc : List (Nat × RelScores))
      (skill : Nat) (r : RelKind),
      lookupRelList
          (comps.foldl
            (fun a cs => assocAdd a cs.skill_id rel cs.score) acc)
          skill r
        = lookupRelList acc skill r
            ++ (if r = rel then
                  (comps.filter (fun cs => cs.skill_id = skill)).map
                    (fun cs => cs.score)
                else []) := by
  intro comps
  induction comps with
  | nil =>
    intro acc skill r
    by_cases hr : r = rel <;> simp [hr]
  | cons cs comps ih =>
    intro acc skill r
    rw [List.foldl_cons, ih, lookupRelList_assocAdd]
    by_cases hr : r = rel <;>
      by_cases hsk : cs.skill_id = skill <;>
        simp [hr, hsk, List.filter_cons, List.append_assoc] <;>
          exact fun h => hsk (Eq.symm h)

/-- The collection loop, started from any dictionary, appends to each
skill/kind entry exactly the scores of the submitted evaluations. -/
theorem lookupRelList_collect_go :
    ∀ (evals : List EvaluationEntity) (acc : List (Nat × RelScores))
      (skill : Nat) (r : RelKind),
      lookupRelList
          (evals.foldl
            (fun acc2 e =>
              if e.is_submitted then
                e.competency_scores.foldl
                  (fun acc3 cs =>
                    assocAdd acc3 cs.skill_id e.evaluator_relationship
                      cs.score)
                  acc2
              else acc2)
            acc)
          skill r
        = lookupRelList acc skill r ++ scoresFor evals skill r := by
  intro evals
  induction evals with
  | nil =>
    intro acc skill r
    simp [scoresFor]
  | cons e rest ih =>
    intro acc skill r
    rw [List.foldl_cons]
    by_cases hsub : e.is_submitted
    · rw [if_pos hsub, ih, lookupRelList_comp_fold]
      have hsf : scoresFor (e :: rest) skill r =
          (if r = e.evaluator_relationship then
            (e.competency_scores.filter
              (fun cs => cs.skill_id = skill)).map (fun cs => cs.score)
          else []) ++ scoresFor rest skill r := by
        unfold scoresFor
        rw [List.filter_cons, if_pos hsub, List.flatMap_cons]
        by_cases hrel : e.evaluator_relationship = r
        · rw [if_pos hrel, if_pos (Eq.symm hrel)]
        · rw [if_neg hrel, if_neg (fun h => hrel (Eq.symm h))]
      rw [hsf, List.append_assoc]
    · rw [if_neg hsub, ih]
      have hsf : scoresFor (e :: rest) skill r = scoresFor rest skill r := by
        unfold scoresFor
        rw [List.filter_cons, if_neg hsub]
      rw [hsf]

/-- The per-skill/kind lists gathered by `collectScores` are exactly the
declarative `scoresFor` lists. -/
theorem lookupRelList_collectScores (evals : List EvaluationEntity)
    (skill : Nat) (r : RelKind) :
    lookupRelList (collectScores evals) skill r = scoresFor evals skill r := by
  unfold collectScores
  rw [lookupRelList_collect_go]
  rfl

/-- Lookup commutes with mapping over the values of the dictionary. -/
theorem lookupKey_map {α β : Type} (f : α → β) :
    ∀ (l : List (Nat × α)) (k : Nat),
      lookupKey (l.map (fun p => (p.1, f p.2))) k = (lookupKey l k).map f := by
  intro l
  induction l with
  | nil => intro k; rfl
  | cons p rest ih =>
    intro k
    by_cases hk : p.1 = k <;> simp [lookupKey, hk, ih]

/-- Project the per-kind average of an aggregated entry. -/
def SkillAgg.avgOf (agg : SkillAgg) (r : RelKind) : Option ℚ :=
  match r with
  | RelKind.self => agg.self_avg
  | RelKind.peer => agg.peer_avg
  | RelKind.manager => agg.manager_avg
  | RelKind.direct_report => agg.direct_report_avg

/-- Project the per-kind sample count of an aggregated entry. -/
def SkillAgg.nOf (agg : SkillAgg) (r : RelKind) : Nat :=
  match r with
  | RelKind.self => agg.n_self
  | RelKind.peer => agg.n_peer
  | RelKind.manager => agg.n_manager
  | RelKind.direct_report => agg.n_direct_report

/-- The spec scenario: self=9.0, manager=8.0, peers=[7.0, 7.0], all on one
skill (id 100). -/
def scenarioEvals : List EvaluationEntity :=
  [ { evaluator_relationship := RelKind.self, status := "submitted",
      competency_scores := [{ skill_id := 100, score := 9 }] },
    { evaluator_relationship := RelKind.manager, status := "submitted",
      competency_scores := [{ skill_id := 100, score := 8 }] },
    { evaluator_relationship := RelKind.peer, status := "submitted",
      competency_scores := [{ skill_id := 100, score := 7 }] },
    { evaluator_relationship := RelKind.peer, status := "submitted",
      competency_scores := [{ skill_id := 100, score := 7 }] } ]

/-- The aggregated entry the scenario must produce. -/
def scenarioAgg : SkillAgg :=
  { overall_avg := 31/4, self_avg := some 9, peer_avg := some 7,
    manager_avg := some 8, direct_report_avg := none,
    n_self := 1, n_peer := 2, n_manager := 1, n_direct_report := 0,
    confidence := 7/10 }

/-- C7: for every aggregated skill entry, each kind's average is the
arithmetic mean of that kind's submitted scores (absent when there are
none), the per-kind counts are the numbers of those scores, the overall
average is the mean over every included score, and the confidence is the
step function of the total sample count; on the spec scenario
(self=9, manager=8, peers=[7,7], one skill) the entry is exactly
overall 7.75, self 9, manager 8, peer 7, counts 1/1/2 and confidence
0.7. -/
theorem claim_C7_score_aggregation :
    (∀ (evals : List EvaluationEntity) (skill : Nat) (agg : SkillAgg),
        lookupKey (aggregate_competency_scores evals) skill = some agg →
        (∀ r : RelKind,
            agg.avgOf r =
              (if (scoresFor evals skill r).isEmpty then none
                else some ((scoresFor evals skill r).sum
                  / (scoresFor evals skill r).length)) ∧
            agg.nOf r = (scoresFor evals skill r).length) ∧
        agg.overall_avg =
          (if (scoresFor evals skill RelKind.self
              ++ scoresFor evals skill RelKind.peer
              ++ scoresFor evals skill RelKind.manager
              ++ scoresFor evals skill RelKind.direct_report).isEmpty
            then 0
            else (scoresFor evals skill RelKind.self
              ++ scoresFor evals skill RelKind.peer
              ++ scoresFor evals skill RelKind.manager
              ++ scoresFor evals skill RelKind.direct_report).sum
              / (scoresFor evals skill RelKind.self
              ++ scoresFor evals skill RelKind.peer
              ++ scoresFor evals skill RelKind.manager
              ++ scoresFor evals skill RelKind.direct_report).length) ∧
        agg.confidence =
          (if 5 ≤ (scoresFor evals skill RelKind.self).length
              + (scoresFor evals skill RelKind.peer).length
              + (scoresFor evals skill RelKind.manager).length
              + (scoresFor evals skill RelKind.direct_report).length
            then 9/10
            else if 3 ≤ (scoresFor evals skill RelKind.self).length
              + (scoresFor evals skill RelKind.peer).length
              + (scoresFor evals skill RelKind.manager).length
              + (scoresFor evals skill RelKind.direct_report).length
            then 7/10
            else if 1 ≤ (scoresFor evals skill RelKind.self).length
              + (scoresFor evals skill RelKind.peer).length
              + (scoresFor evals skill RelKind.manager).length
              + (scoresFor evals skill RelKind.direct_report).length
            then 1/2
            else 0)) ∧
    lookupKey (aggregate_competency_scores scenarioEvals) 100
      = some scenarioAgg := by
  constructor
  · intro evals skill agg hagg
    unfold aggregate_competency_scores at hagg
    rw [lookupKey_map] at hagg
    cases hcs : lookupKey (collectScores evals) skill with
    | none =>
      rw [hcs] at hagg
      simp at hagg
    | some rs =>
      rw [hcs] at hagg
      simp at hagg
      subst hagg
      have hget : ∀ r : RelKind, rs.get r = scoresFor evals skill r := by
        intro r
        have h := lookupRelList_collectScores evals skill r
        unfold lookupRelList at h
        rw [hcs] at h
        exact h
      refine ⟨fun r => ⟨?_, ?_⟩, ?_, ?_⟩
      · rw [← hget r]
        cases r <;> rfl
      · rw [← hget r]
        cases r <;> rfl
      · rw [← hget RelKind.self, ← hget RelKind.peer,
          ← hget RelKind.manager, ← hget RelKind.direct_report]
        rfl
      · rw [← hget RelKind.self, ← hget RelKind.peer,
          ← hget RelKind.manager, ← hget RelKind.direct_report]
        simp [aggregateEntry, RelScores.get, List.length_append,
          Nat.add_assoc]
  · norm_num [scenarioEvals, scenarioAgg, aggregate_competency_scores,
      collectScores, lookupKey, assocAdd, emptyRelScores,
      RelScores.addScore, aggregateEntry, meanOpt,
      EvaluationEntity.is_submitted]

/-- Witness for C7 at the spec scenario: the peer clauses of the general
statement, discharged with the scenario entry itself. -/
theorem claim_C7_score_aggregation_witness :
    scenarioAgg.avgOf RelKind.peer =
      (if (scoresFor scenarioEvals 100 RelKind.peer).isEmpty then none
        else some ((scoresFor scenarioEvals 100 RelKind.peer).sum
          / (scoresFor scenarioEvals 100 RelKind.peer).length)) ∧
    scenarioAgg.nOf RelKind.peer
      = (scoresFor scenarioEvals 100 RelKind.peer).length := by
  have h := claim_C7_score_aggregation
  exact ⟨((h.1 scenarioEvals 100 scenarioAgg h.2).1 RelKind.peer).1,
    ((h.1 scenarioEvals 100 scenarioAgg h.2).1 RelKind.peer).2⟩

/-! ## Aggregation writer (EvaluationService._aggregate_user_skill_scores) -/

/-- A persisted `user_skill_scores` row (the generated UUID primary key is
not modelled; rows are compared by content). -/
structure UserSkillScore where
  user_id : Nat
  evaluation_cycle_id : Nat
  skill_id : Nat
  source : String
  score : ℚ
  confidence : ℚ
deriving DecidableEq, Repr

/-- `UserSkillScoreRepository.delete_by_user_and_cycle(user_id, cycle_id)`
as called by the writer — no source filter, so every row of the exact
(user, cycle) pair goes. -/
def delete_by_user_and_cycle (db : List UserSkillScore) (u c : Nat) :
    List UserSkillScore :=
  db.filter
    (fun row => ¬ (row.user_id = u ∧ row.evaluation_cycle_id = c))

/-- One freshly created row of step 3.3. -/
def mkScoreRow (u c : Nat) (p : Nat × SkillAgg) : UserSkillScore :=
  { user_id := u, evaluation_cycle_id := c, skill_id := p.1,
    source := "360_aggregated", score := p.2.overall_avg,
    confidence := p.2.confidence }

/-- `_aggregate_user_skill_scores`: delete all rows of the (user, cycle)
pair, then bulk-insert the freshly aggregated rows, in one transaction. -/
def aggregate_user_skill_scores (db : List UserSkillScore)
    (evals : List EvaluationEntity) (u c : Nat) : List UserSkillScore :=
  delete_by_user_and_cycle db u c
    ++ (aggregate_competency_scores evals).map (mkScoreRow u c)

/-- `assocAdd` keeps the key list, only appending an unseen key. -/
theorem assocAdd_keys (sk : Nat) (r : RelKind) (s : ℚ) :
    ∀ acc : List (Nat × RelScores),
      (assocAdd acc sk r s).map Prod.fst =
        if sk ∈ acc.map Prod.fst then acc.map Prod.fst
        else acc.map Prod.fst ++ [sk] := by
  intro acc
  induction acc with
  | nil => simp [assocAdd]
  | cons p rest ih =>
    obtain ⟨k, rs⟩ := p
    by_cases hk : k = sk
    · subst hk
      simp [assocAdd]
    · rw [show assocAdd ((k, rs) :: rest) sk r s
        = (k, rs) :: assocAdd rest sk r s from by simp [assocAdd, hk]]
      by_cases hmem : sk ∈ rest.map Prod.fst <;>
        simp [hmem, ih, fun h => hk (Eq.symm h)] <;>
          rw [if_neg (fun h => hk (Eq.symm h))]

/-- `assocAdd` preserves distinctness of the keys. -/
theorem assocAdd_nodup (sk : Nat) (r : RelKind) (s : ℚ)
    (acc : List (Nat × RelScores)) (h : (acc.map Prod.fst).Nodup) :
    ((assocAdd acc sk r s).map Prod.fst).Nodup := by
  rw [assocAdd_keys]
  by_cases hmem : sk ∈ acc.map Prod.fst
  · simpa [hmem] using h
  · simp only [if_neg hmem]
    rw [List.nodup_append]
    exact ⟨h, List.nodup_singleton sk, by simpa using hmem⟩

/-- The inner score fold preserves distinctness of the keys. -/
theorem comp_fold_nodup (rel : RelKind) (comps : List CompetencyScore) :
    ∀ acc : List (Nat × RelScores), (acc.map Prod.fst).Nodup →
      ((comps.foldl
          (fun a cs => assocAdd a cs.skill_id rel cs.score) acc).map
        Prod.fst).Nodup := by
  induction comps with
  | nil => intro acc h; exact h
  | cons cs comps ih =>
    intro acc h
    rw [List.foldl_cons]
    exact ih _ (assocAdd_nodup cs.skill_id rel cs.score acc h)

/-- The skills dictionary built by `collectScores` has distinct keys. -/
theorem collectScores_keys_nodup (evals : List EvaluationEntity) :
    ((collectScores evals).map Prod.fst).Nodup := by
  unfold collectScores
  have hgo : ∀ (l : List EvaluationEntity)
      (acc : List (Nat × RelScores)), (acc.map Prod.fst).Nodup →
      ((l.foldl
          (fun acc2 e =>
            if e.is_submitted then
              e.competency_scores.foldl
                (fun acc3 cs =>
                  assocAdd acc3 cs.skill_id e.evaluator_relationship
                    cs.score)
                acc2
            else acc2)
          acc).map Prod.fst).Nodup := by
    intro l
    induction l with
    | nil => intro acc h; exact h
    | cons e rest ih =>
      intro acc h
      rw [List.foldl_cons]
      by_cases hsub : e.is_submitted
      · rw [if_pos hsub]
        exact ih _ (comp_fold_nodup e.evaluator_relationship
          e.competency_scores acc h)
      · rw [if_neg hsub]
        exact ih _ h
  exact hgo evals [] (by simp)

/-- The aggregated dictionary keeps the distinct collected keys. -/
theorem aggregate_keys_nodup (evals : List EvaluationEntity) :
    ((aggregate_competency_scores evals).map Prod.fst).Nodup := by
  unfold aggregate_competency_scores
  rw [List.map_map]
  exact collectScores_keys_nodup evals

/-- No deleted-survivor row matches the (user, cycle) pair. -/
theorem filter_pair_delete (db : List UserSkillScore) (u c : Nat) :
    (delete_by_user_and_cycle db u c).filter
        (fun row => row.user_id = u ∧ row.evaluation_cycle_id = c) = [] := by
  unfold delete_by_user_and_cycle
  rw [List.filter_filter]
  apply List.filter_eq_nil.mpr
  intro row _
  by_cases h : row.user_id = u ∧ row.evaluation_cycle_id = c <;> simp [h]

/-- Deleting the pair twice is the same as deleting it once. -/
theorem delete_pair_idem (db : List UserSkillScore) (u c : Nat) :
    delete_by_user_and_cycle (delete_by_user_and_cycle db u c) u c
      = delete_by_user_and_cycle db u c := by
  unfold delete_by_user_and_cycle
  rw [List.filter_filter]
  apply List.filter_congr
  intro row _
  by_cases h : row.user_id = u ∧ row.evaluation_cycle_id = c <;> simp [h]

/-- Every freshly created row carries the (user, cycle) pair. -/
theorem filter_pair_new (evals : List EvaluationEntity) (u c : Nat) :
    ((aggregate_competency_scores evals).map (mkScoreRow u c)).filter
        (fun row => row.user_id = u ∧ row.evaluation_cycle_id = c)
      = (aggregate_competency_scores evals).map (mkScoreRow u c) := by
  apply List.filter_eq_self.mpr
  intro row hrow
  obtain ⟨p, _, rfl⟩ := List.mem_map.mp hrow
  simp [mkScoreRow]

/-- Deleting the pair removes every freshly created row. -/
theorem delete_pair_new (evals : List EvaluationEntity) (u c : Nat) :
    delete_by_user_and_cycle
        ((aggregate_competency_scores evals).map (mkScoreRow u c)) u c
      = [] := by
  unfold delete_by_user_and_cycle
  apply List.filter_eq_nil.mpr
  intro row hrow
  obtain ⟨p, _, rfl⟩ := List.mem_map.mp hrow
  simp [mkScoreRow]

/-- C8: the writer fully replaces the (subject, cycle) pair's rows: after a
run, the pair's rows are exactly the freshly computed ones, rows of any
other pair are untouched, running the writer twice on identical input
yields the same database as running it once, and the final rows hold one
distinct skill each. -/
theorem claim_C8_aggregation_write_replacement :
    ∀ (db : List UserSkillScore) (evals : List EvaluationEntity)
      (u c : Nat),
      ((aggregate_user_skill_scores db evals u c).filter
          (fun row => row.user_id = u ∧ row.evaluation_cycle_id = c)
        = (aggregate_competency_scores evals).map (mkScoreRow u c)) ∧
      ((aggregate_user_skill_scores db evals u c).filter
          (fun row => ¬ (row.user_id = u ∧ row.evaluation_cycle_id = c))
        = db.filter
            (fun row =>
              ¬ (row.user_id = u ∧ row.evaluation_cycle_id = c))) ∧
      aggregate_user_skill_scores
          (aggregate_user_skill_scores db evals u c) evals u c
        = aggregate_user_skill_scores db evals u c ∧
      (((aggregate_user_skill_scores db evals u c).filter
          (fun row => row.user_id = u ∧ row.evaluation_cycle_id = c)).map
            (fun row => row.skill_id)).Nodup := by
  intro db evals u c
  have hsplit : aggregate_user_skill_scores db evals u c
      = delete_by_user_and_cycle db u c
        ++ (aggregate_competency_scores evals).map (mkScoreRow u c) := rfl
  have hpair : (aggregate_user_skill_scores db evals u c).filter
      (fun row => row.user_id = u ∧ row.evaluation_cycle_id = c)
      = (aggregate_competency_scores evals).map (mkScoreRow u c) := by
    rw [hsplit, List.filter_append, filter_pair_delete, filter_pair_new,
      List.nil_append]
  refine ⟨hpair, ?_, ?_, ?_⟩
  · rw [hsplit, List.filter_append]
    have h2 : ((aggregate_competency_scores evals).map
        (mkScoreRow u c)).filter
        (fun row => ¬ (row.user_id = u ∧ row.evaluation_cycle_id = c))
        = [] := delete_pair_new evals u c
    rw [h2, List.append_nil]
    exact delete_pair_idem db u c
  · rw [show aggregate_user_skill_scores
        (aggregate_user_skill_scores db evals u c) evals u c
      = delete_by_user_and_cycle
          (aggregate_user_skill_scores db evals u c) u c
        ++ (aggregate_competency_scores evals).map (mkScoreRow u c)
      from rfl]
    rw [hsplit]
    rw [show delete_by_user_and_cycle
        (delete_by_user_and_cycle db u c
          ++ (aggregate_competency_scores evals).map (mkScoreRow u c)) u c
      = delete_by_user_and_cycle (delete_by_user_and_cycle db u c) u c
        ++ delete_by_user_and_cycle
            ((aggregate_competency_scores evals).map (mkScoreRow u c)) u c
      from List.filter_append _ _]
    rw [delete_pair_idem, delete_pair_new, List.append_nil]
  · rw [hpair, List.map_map]
    have hcomp : ((fun row => row.skill_id) ∘ mkScoreRow u c)
        = Prod.fst := by
      funext p
      rfl
    rw [hcomp]
    exact aggregate_keys_nodup evals

/-! ## Skills-assessment role-readiness normalization
(SkillsAssessmentService.generate_assessment) -/

/-- One entry of `ai_response["readiness_for_roles"]`. -/
structure ReadinessEntry where
  role : String
  readiness_percentage : Option ℚ
  missing_competencies : List String
deriving DecidableEq, Repr

/-- The persisted role-readiness `AssessmentItem` fields the loop writes. -/
structure AssessmentItem where
  item_type : String
  label : String
  readiness_percentage : Option ℚ
deriving DecidableEq, Repr

/-- The role-readiness loop of `generate_assessment`: the first
normalization (divide by 1.0) is immediately overwritten by the second
(divide by 100.0), exactly as in the source. -/
def buildReadinessItems (entries : List ReadinessEntry) :
    List AssessmentItem :=
  entries.map (fun r =>
    let normalized := r.readiness_percentage.map (fun p => p / 1)
    let normalized := r.readiness_percentage.map (fun p => p / 100)
    { item_type := "role_readiness", label := r.role,
      readiness_percentage := normalized })

/-- Modelled from the spec: one role-readiness item per entry with the
percentage normalized from the external 0–100 scale to the internal 0–1
scale by a single division by 100, and null kept as null. -/
def buildReadinessItemsSpec (entries : List ReadinessEntry) :
    List AssessmentItem :=
  entries.map (fun r =>
    { item_type := "role_readiness", label := r.role,
      readiness_percentage := r.readiness_percentage.map (fun p => p / 100) })

/-- C9: the persisted readiness is the entry's percentage divided by 100
(null stays null); the loop as written, with its dead first division by
1.0, coincides with the single-normalization reading of the spec. -/
theorem claim_C9_readiness_normalization :
    (∀ entries : List ReadinessEntry,
        buildReadinessItems entries = buildReadinessItemsSpec entries) ∧
    (∀ (entries : List ReadinessEntry) (i : Nat) (h : i < entries.length),
        (buildReadinessItems entries).get
            ⟨i, by simpa [buildReadinessItems] using h⟩ =
          { item_type := "role_readiness"
            label := (entries.get ⟨i, h⟩).role
            readiness_percentage :=
              (entries.get ⟨i, h⟩).readiness_percentage.map
                (fun p => p / 100) }) := by
  constructor
  · intro entries
    unfold buildReadinessItems buildReadinessItemsSpec
    rfl
  · intro entries i h
    unfold buildReadinessItems
    rw [List.get_map]

/-- A concrete readiness entry with percentage 85 and one with null. -/
def readinessEx : List ReadinessEntry :=
  [ { role := "Gerente Regional", readiness_percentage := some 85,
      missing_competencies := [] },
    { role := "Director", readiness_percentage := none,
      missing_competencies := [] } ]

/-- Witness for C9: entry 85 is stored as 17/20 = 0.85; a null percentage
stays null. -/
theorem claim_C9_readiness_normalization_witness :
    (buildReadinessItems readinessEx).get
        ⟨0, by simpa [buildReadinessItems] using
          (by norm_num [readinessEx] : (0:Nat) < readinessEx.length)⟩ =
      { item_type := "role_readiness", label := "Gerente Regional",
        readiness_percentage := some (17/20) } ∧
    (buildReadinessItems readinessEx).get
        ⟨1, by simpa [buildReadinessItems] using
          (by norm_num [readinessEx] : (1:Nat) < readinessEx.length)⟩ =
      { item_type := "role_readiness", label := "Director",
        readiness_percentage := none } := by
  have h0 := claim_C9_readiness_normalization.2 readinessEx 0
    (by norm_num [readinessEx])
  have h1 := claim_C9_readiness_normalization.2 readinessEx 1
    (by norm_num [readinessEx])
  constructor
  · rw [h0]
    norm_num [readinessEx]
  · rw [h1]
    norm_num [readinessEx]

/-! ## Career-path ingestion (CareerPathService.generate_career_paths) -/

/-- One competency of a generated step
(`required_competencies` entry). -/
structure GenCompetency where
  name : String
  development_actions : List String
deriving DecidableEq, Repr

/-- One step of a generated path. -/
structure GenStep where
  step_number : Nat
  step_name : String
  target_role : Option String
  duration_months : Nat
  required_competencies : List GenCompetency
deriving DecidableEq, Repr

/-- One generated path of the AI response. -/
structure GenPath where
  path_name : String
  recommended : Bool
  feasibility_score : ℚ
  total_duration_months : Nat
  steps : List GenStep
deriving DecidableEq, Repr

/-- The AI career-path response body. -/
structure AIResponse where
  generated_paths : List GenPath
deriving DecidableEq, Repr

/-- A persisted `career_paths` row; the generated UUID is modelled as the
path's index in the response. -/
structure CareerPathRow where
  id : Nat
  user_id : Nat
  path_name : String
  recommended : Bool
  feasibility_score : ℚ
  total_duration_months : Nat
  status : String
deriving DecidableEq, Repr

/-- A persisted `career_path_steps` row; the parent is the path index and
`step_index` the step's position in the response. -/
structure CareerPathStepRow where
  career_path_id : Nat
  step_index : Nat
  step_number : Nat
  target_role_id : Option Nat
  description : String
  duration_months : Nat
deriving DecidableEq, Repr

/-- A persisted `development_actions` row, linked to its step by
(path index, step index). -/
structure DevelopmentActionRow where
  career_path_id : Nat
  step_index : Nat
  skill_id : Option Nat
  action_type : String
  title : String
deriving DecidableEq, Repr

/-- `pat` is a leading block of `l`. -/
def charsLead (pat l : List Char) : Bool :=
  match pat, l with
  | [], _ => true
  | _ :: _, [] => false
  | p :: ps, x :: xs => p = x && charsLead ps xs

/-- `pat` occurs somewhere inside `l`. -/
def charsContain (pat l : List Char) : Bool :=
  charsLead pat l ||
    match l with
    | [] => false
    | _ :: xs => charsContain pat xs

/-- Python's `pat in s` on strings. -/
def strContains (s pat : String) : Bool :=
  charsContain pat.toList s.toList

/-- The keyword heuristic assigning an `action_type` to a free-text action
title. -/
def classifyAction (title : String) : String :=
  if strContains title "Curso" || strContains title "Course" then
    "course"
  else if strContains title "Proyecto" || strContains title "Project" then
    "project"
  else if strContains title "Mentoría" || strContains title "Mentoring" then
    "mentoring"
  else if strContains title "Shadowing" then
    "shadowing"
  else if strContains title "Certificación"
      || strContains title "Certification" then
    "certification"
  else
    "other"

/-- The rows produced by one ingestion commit plus the audit status. -/
structure IngestState where
  paths : List CareerPathRow
  steps : List CareerPathStepRow
  actions : List DevelopmentActionRow
  logStatus : String
deriving DecidableEq, Repr

/-- The `career_paths` row created for the generated path at index
`pi.1`. -/
def mkPathRow (uid : Nat) (pi : Nat × GenPath) : CareerPathRow :=
  { id := pi.1, user_id := uid, path_name := pi.2.path_name,
    recommended := pi.2.recommended,
    feasibility_score := pi.2.feasibility_score,
    total_duration_months := pi.2.total_duration_months,
    status := "proposed" }

/-- The `career_path_steps` row created for the step at index `si.1` of
the path at index `pathIdx`; the role link is resolved by exact name and a
missing role leaves the step without a link. -/
def mkStepRow (roleLookup : String → Option Nat) (pathIdx : Nat)
    (si : Nat × GenStep) : CareerPathStepRow :=
  { career_path_id := pathIdx, step_index := si.1,
    step_number := si.2.step_number,
    target_role_id :=
      match si.2.target_role with
      | none => none
      | some nm => roleLookup nm,
    description := "Progress to "
      ++ (match si.2.target_role with
          | none => "None"
          | some nm => nm),
    duration_months := si.2.duration_months }

/-- The `development_actions` rows created for one competency of one step:
one row per listed title, with the keyword-classified type and the skill
resolved by exact name. -/
def mkActionRows (skillLookup : String → Option Nat)
    (pathIdx stepIdx : Nat) (comp : GenCompetency) :
    List DevelopmentActionRow :=
  comp.development_actions.map (fun title =>
    { career_path_id := pathIdx, step_index := stepIdx,
      skill_id := skillLookup comp.name,
      action_type := classifyAction title,
      title := title })

/-- Persist a successful response: one "proposed" path per generated path,
steps keeping the AI-given step numbers, and one development action per
listed title. -/
def ingestResponse (uid : Nat)
    (roleLookup skillLookup : String → Option Nat) (resp : AIResponse) :
    IngestState :=
  { paths := resp.generated_paths.enum.map (mkPathRow uid)
    steps :=
      resp.generated_paths.enum.flatMap (fun pi =>
        pi.2.steps.enum.map (mkStepRow roleLookup pi.1))
    actions :=
      resp.generated_paths.enum.flatMap (fun pi =>
        pi.2.steps.enum.flatMap (fun si =>
          si.2.required_competencies.flatMap
            (mkActionRows skillLookup pi.1 si.1)))
    logStatus := "success" }

/-- `generate_career_paths` after the external call: a successful response
is persisted with the audit row marked "success"; a raised call persists
nothing except the audit row marked "error". -/
def generate_career_paths (uid : Nat)
    (roleLookup skillLookup : String → Option Nat)
    (callResult : Except String AIResponse) : IngestState :=
  match callResult with
  | Except.error _ =>
    { paths := [], steps := [], actions := [], logStatus := "error" }
  | Except.ok resp => ingestResponse uid roleLookup skillLookup resp

/-- Mapping a function of the element over an enumeration forgets the
indices. -/
theorem map_enum_snd {α β : Type} (f : α → β) (l : List α) :
    l.enum.map (fun p => f p.2) = l.map f := by
  rw [show (fun p : Nat × α => f p.2) = (f ∘ Prod.snd) from rfl,
    ← List.map_map, List.enum_map_snd]

/-- Flat-mapping a function of the element over an enumeration forgets the
indices. -/
theorem flatMap_enum_snd {α β : Type} (g : α → List β) (l : List α) :
    l.enum.flatMap (fun p => g p.2) = l.flatMap g := by
  rw [show l.enum.flatMap (fun p => g p.2)
      = (l.enum.map (fun p => g p.2)).flatten from rfl,
    map_enum_snd,
    show l.flatMap g = (l.map g).flatten from rfl]

/-- The titles of the action rows of one competency are exactly its listed
titles. -/
theorem mkActionRows_titles (sl : String → Option Nat)
    (pathIdx stepIdx : Nat) (comp : GenCompetency) :
    (mkActionRows sl pathIdx stepIdx comp).map (fun a => a.title)
      = comp.development_actions := by
  unfold mkActionRows
  rw [List.map_map]
  rw [show ((fun a : DevelopmentActionRow => a.title) ∘ (fun title =>
      ({ career_path_id := pathIdx, step_index := stepIdx,
          skill_id := sl comp.name, action_type := classifyAction title,
          title := title } : DevelopmentActionRow)))
    = (fun title => title) from rfl]
  exact List.map_id' comp.development_actions

/-- The titles of all action rows of one path are the listed titles of its
steps, in order. -/
theorem actions_titles (sl : String → Option Nat) (pathIdx : Nat)
    (steps : List GenStep) :
    ((steps.enum.flatMap (fun si =>
        si.2.required_competencies.flatMap
          (mkActionRows sl pathIdx si.1))).map (fun a => a.title))
      = steps.flatMap (fun s =>
          s.required_competencies.flatMap
            (fun comp => comp.development_actions)) := by
  rw [List.map_flatMap]
  have hfun : (fun si : Nat × GenStep =>
      (si.2.required_competencies.flatMap
        (mkActionRows sl pathIdx si.1)).map (fun a => a.title))
      = (fun si : Nat × GenStep =>
          si.2.required_competencies.flatMap
            (fun comp => comp.development_actions)) := by
    funext si
    rw [List.map_flatMap]
    congr 1
    funext comp
    exact mkActionRows_titles sl pathIdx si.1 comp
  rw [hfun]
  exact flatMap_enum_snd
    (fun s => s.required_competencies.flatMap
      (fun comp => comp.development_actions)) steps

/-- The (parent, number) pairs of one path's step rows are its AI-given
step numbers paired with the parent index. -/
theorem steps_pairs (rl : String → Option Nat) (pathIdx : Nat)
    (steps : List GenStep) :
    ((steps.enum.map (mkStepRow rl pathIdx)).map
        (fun st => (st.career_path_id, st.step_number)))
      = (steps.map (fun s => s.step_number)).map (fun n => (pathIdx, n)) := by
  have h1 : ((steps.enum.map (mkStepRow rl pathIdx)).map
      (fun st => (st.career_path_id, st.step_number)))
      = steps.enum.map (fun p => (pathIdx, p.2.step_number)) := by
    rw [List.map_map]
    rfl
  have h2 : steps.enum.map (fun p => (pathIdx, p.2.step_number))
      = steps.map (fun s => (pathIdx, s.step_number)) :=
    map_enum_snd (fun s : GenStep => (pathIdx, s.step_number)) steps
  have h3 : steps.map (fun s => (pathIdx, s.step_number))
      = (steps.map (fun s => s.step_number)).map (fun n => (pathIdx, n)) := by
    rw [List.map_map]
    rfl
  rw [h1, h2, h3]

/-- C5: for a response of exactly 2 generated paths whose steps are
numbered [1, 2], ingestion persists exactly 2 CareerPath rows, all with
status "proposed", and 4 CareerPathStep rows whose (parent, step number)
pairs are (0,1), (0,2), (1,1), (1,2) — numbers unique within each parent —
and one DevelopmentAction per listed action title, in order, with the
audit row marked "success"; when the external call throws, zero rows exist
and the audit row is marked "error". -/
theorem claim_C5_career_path_ingestion :
    (∀ (uid : Nat) (roleLookup skillLookup : String → Option Nat)
        (resp : AIResponse),
        resp.generated_paths.length = 2 →
        (∀ p ∈ resp.generated_paths,
          p.steps.map (fun s => s.step_number) = [1, 2]) →
        (generate_career_paths uid roleLookup skillLookup
            (Except.ok resp)).paths.length = 2 ∧
        (∀ row ∈ (generate_career_paths uid roleLookup skillLookup
            (Except.ok resp)).paths, row.status = "proposed") ∧
        (generate_career_paths uid roleLookup skillLookup
            (Except.ok resp)).steps.length = 4 ∧
        ((generate_career_paths uid roleLookup skillLookup
            (Except.ok resp)).steps.map
            (fun st => (st.career_path_id, st.step_number)))
          = [(0, 1), (0, 2), (1, 1), (1, 2)] ∧
        ((generate_career_paths uid roleLookup skillLookup
            (Except.ok resp)).actions.map (fun a => a.title)
          = resp.generated_paths.flatMap (fun p =>
              p.steps.flatMap (fun s =>
                s.required_competencies.flatMap
                  (fun comp => comp.development_actions)))) ∧
        (generate_career_paths uid roleLookup skillLookup
            (Except.ok resp)).logStatus = "success") ∧
    (∀ (uid : Nat) (roleLookup skillLookup : String → Option Nat)
        (e : String),
        generate_career_paths uid roleLookup skillLookup (Except.error e)
          = { paths := [], steps := [], actions := [],
              logStatus := "error" }) := by
  constructor
  · intro uid rl sl resp hlen hsteps
    obtain ⟨p1, p2, hresp⟩ := List.length_eq_two.mp hlen
    have hp1 : p1.steps.map (fun s => s.step_number) = [1, 2] :=
      hsteps p1 (by rw [hresp]; simp)
    have hp2 : p2.steps.map (fun s => s.step_number) = [1, 2] :=
      hsteps p2 (by rw [hresp]; simp)
    have hl1 : p1.steps.length = 2 := by
      have h := congrArg List.length hp1
      simpa using h
    have hl2 : p2.steps.length = 2 := by
      have h := congrArg List.length hp2
      simpa using h
    rw [show generate_career_paths uid rl sl (Except.ok resp)
      = ingestResponse uid rl sl resp from rfl]
    unfold ingestResponse
    rw [hresp]
    rw [show ([p1, p2] : List GenPath).enum = [(0, p1), (1, p2)] from rfl]
    refine ⟨?_, ?_, ?_, ?_, ?_, ?_⟩
    · rfl
    · intro row hrow
      simp only [List.map_cons, List.map_nil, List.mem_cons,
        List.not_mem_nil, or_false] at hrow
      rcases hrow with h | h <;> (rw [h]; rfl)
    · simp only [List.flatMap_cons, List.flatMap_nil, List.append_nil]
      simp [List.length_append, List.enum_length, hl1, hl2]
    · simp only [List.flatMap_cons, List.flatMap_nil, List.append_nil]
      rw [List.map_append, steps_pairs, steps_pairs, hp1, hp2]
      rfl
    · simp only [List.flatMap_cons, List.flatMap_nil, List.append_nil]
      rw [List.map_append, actions_titles, actions_titles]
    · rfl
  · intro uid rl sl e
    rfl

/-- A role catalogue with one known role. -/
def roleLookupEx : String → Option Nat :=
  fun nm => if nm = "Gerente Regional" then some 10 else none

/-- A skill catalogue with one known skill. -/
def skillLookupEx : String → Option Nat :=
  fun nm => if nm = "Pensamiento Estratégico" then some 20 else none

/-- A concrete response with 2 generated paths of 2 steps each, numbered
1 and 2, listing three action titles overall; the second step names a role
missing from the catalogue. -/
def respEx : AIResponse :=
  { generated_paths :=
    [ { path_name := "Ruta de Liderazgo Regional", recommended := true,
        feasibility_score := 1, total_duration_months := 24,
        steps :=
          [ { step_number := 1, step_name := "Consolidación",
              target_role := some "Gerente Regional",
              duration_months := 12,
              required_competencies :=
                [ { name := "Pensamiento Estratégico",
                    development_actions :=
                      ["Curso: Estrategia", "Proyecto: Plan"] } ] },
            { step_number := 2, step_name := "Transición",
              target_role := some "Rol Desconocido",
              duration_months := 12,
              required_competencies := [] } ] },
      { path_name := "Ruta de Operaciones", recommended := false,
        feasibility_score := 0, total_duration_months := 18,
        steps :=
          [ { step_number := 1, step_name := "Especialista",
              target_role := none, duration_months := 9,
              required_competencies :=
                [ { name := "Optimización de Procesos",
                    development_actions := ["Mentoría con Gerente"] } ] },
            { step_number := 2, step_name := "Gerente de Operaciones",
              target_role := none, duration_months := 9,
              required_competencies := [] } ] } ] }

/-- Witness for C5 on the concrete response: 2 path rows, step pairs
(0,1), (0,2), (1,1), (1,2), one action per title in order, a "success"
audit row — and an "error" audit row with zero rows when the call
throws. -/
theorem claim_C5_career_path_ingestion_witness :
    (generate_career_paths 7 roleLookupEx skillLookupEx
        (Except.ok respEx)).paths.length = 2 ∧
    ((generate_career_paths 7 roleLookupEx skillLookupEx
        (Except.ok respEx)).steps.map
        (fun st => (st.career_path_id, st.step_number)))
      = [(0, 1), (0, 2), (1, 1), (1, 2)] ∧
    (generate_career_paths 7 roleLookupEx skillLookupEx
        (Except.ok respEx)).actions.map (fun a => a.title)
      = ["Curso: Estrategia", "Proyecto: Plan", "Mentoría con Gerente"] ∧
    (generate_career_paths 7 roleLookupEx skillLookupEx
        (Except.ok respEx)).logStatus = "success" ∧
    generate_career_paths 7 roleLookupEx skillLookupEx
        (Except.error "boom")
      = { paths := [], steps := [], actions := [],
          logStatus := "error" } := by
  have h := claim_C5_career_path_ingestion
  have h1 := h.1 7 roleLookupEx skillLookupEx respEx rfl (by decide)
  refine ⟨h1.1, h1.2.2.2.1, ?_, h1.2.2.2.2.2,
    h.2 7 roleLookupEx skillLookupEx "boom"⟩
  rw [h1.2.2.2.2.1]
  rfl

/-! ## Accept-path transition (CareerPathRepository.accept_path and
CareerPathService.accept_path) -/

/-- `CareerPathRepository.get_by_id`: first row with the given id. -/
def get_by_id (db : List CareerPathRow) (pid : Nat) :
    Option CareerPathRow :=
  db.find? (fun r => r.id = pid)

/-- The row-level effect of the repository's accept transition: the
fetched path's row becomes "accepted"; the UPDATE statement turns every
other row of the same user currently "proposed" or "accepted" into
"discarded"; all other rows are untouched. -/
def acceptUpdateRow (pid uid : Nat) (r : CareerPathRow) : CareerPathRow :=
  if r.id = pid then
    { r with status := "accepted" }
  else if r.user_id = uid ∧ ¬ r.id = pid ∧
      (r.status = "proposed" ∨ r.status = "accepted") then
    { r with status := "discarded" }
  else
    r

/-- `CareerPathRepository.accept_path`: `None` when the path is missing or
owned by someone else, otherwise the updated table. -/
def repoAcceptPath (db : List CareerPathRow) (pid uid : Nat) :
    Option (List CareerPathRow) :=
  match get_by_id db pid with
  | none => none
  | some path =>
    if path.user_id = uid then some (db.map (acceptUpdateRow pid uid))
    else none

/-- The service-level error taxonomy of `CareerPathService.accept_path`. -/
inductive AcceptError where
  | notFound
  | validation
  | conflict
deriving DecidableEq, Repr

/-- `CareerPathService.accept_path`: validate existence, ownership and the
"proposed" status, then run the repository transition and commit. -/
def serviceAcceptPath (db : List CareerPathRow) (pid uid : Nat) :
    Except AcceptError (List CareerPathRow) :=
  match get_by_id db pid with
  | none => Except.error AcceptError.notFound
  | some path =>
    if ¬ path.user_id = uid then Except.error AcceptError.validation
    else if ¬ path.status = "proposed" then Except.error AcceptError.conflict
    else
      match repoAcceptPath db pid uid with
      | none => Except.error AcceptError.notFound
      | some db2 => Except.ok db2

/-- Career-path tables reachable in this domain: paths are created with
status "proposed" and fresh ids by ingestion, and change status only
through the accept transition. -/
inductive ReachableDB : List CareerPathRow → Prop where
  | empty : ReachableDB []
  | propose (db : List CareerPathRow) (r : CareerPathRow) :
      ReachableDB db → r.status = "proposed" →
      r.id ∉ db.map (fun x => x.id) → ReachableDB (db ++ [r])
  | accept (db db2 : List CareerPathRow) (pid uid : Nat) :
      ReachableDB db → serviceAcceptPath db pid uid = Except.ok db2 →
      ReachableDB db2

/-- The table invariant: distinct ids, and no user owns two "accepted"
rows. -/
def AcceptInv (db : List CareerPathRow) : Prop :=
  (db.map (fun r => r.id)).Nodup ∧
    db.Pairwise (fun a b => ¬ (a.user_id = b.user_id ∧
      a.status = "accepted" ∧ b.status = "accepted"))

/-- The accept update never changes a row's id. -/
theorem acceptUpdateRow_id (pid uid : Nat) (r : CareerPathRow) :
    (acceptUpdateRow pid uid r).id = r.id := by
  unfold acceptUpdateRow
  by_cases h1 : r.id = pid
  · rw [if_pos h1]
  · rw [if_neg h1]
    split <;> rfl

/-- The accept update never changes a row's owner. -/
theorem acceptUpdateRow_user (pid uid : Nat) (r : CareerPathRow) :
    (acceptUpdateRow pid uid r).user_id = r.user_id := by
  unfold acceptUpdateRow
  by_cases h1 : r.id = pid
  · rw [if_pos h1]
  · rw [if_neg h1]
    split <;> rfl

/-- A row that is "accepted" after the update either is the accepted path
itself or was an "accepted" row of a different user. -/
theorem acceptUpdateRow_accepted (pid uid : Nat) (r : CareerPathRow)
    (h : (acceptUpdateRow pid uid r).status = "accepted") :
    r.id = pid ∨ (r.status = "accepted" ∧ ¬ r.user_id = uid) := by
  unfold acceptUpdateRow at h
  by_cases h1 : r.id = pid
  · exact Or.inl h1
  · rw [if_neg h1] at h
    by_cases h2 : r.user_id = uid ∧ ¬ r.id = pid ∧
        (r.status = "proposed" ∨ r.status = "accepted")
    · rw [if_pos h2] at h
      simp at h
    · rw [if_neg h2] at h
      refine Or.inr ⟨h, fun huid => h2 ⟨huid, h1, Or.inr h⟩⟩

/-- With the service's preconditions met, accept succeeds and commits the
row-mapped table. -/
theorem serviceAcceptPath_ok (db : List CareerPathRow) (pid uid : Nat)
    (p : CareerPathRow) (hfind : get_by_id db pid = some p)
    (howner : p.user_id = uid) (hstat : p.status = "proposed") :
    serviceAcceptPath db pid uid
      = Except.ok (db.map (acceptUpdateRow pid uid)) := by
  unfold serviceAcceptPath repoAcceptPath
  rw [hfind]
  simp [howner, hstat]

/-- Every reachable career-path table has distinct ids and no user with
two "accepted" rows. -/
theorem reachable_accept_inv (db : List CareerPathRow)
    (h : ReachableDB db) : AcceptInv db := by
  induction h with
  | empty => exact ⟨List.nodup_nil, List.Pairwise.nil⟩
  | propose db r hdb hstat hfresh ih =>
    obtain ⟨hids, hpw⟩ := ih
    constructor
    · rw [List.map_append, List.nodup_append]
      exact ⟨hids, List.nodup_singleton _, by simpa using hfresh⟩
    · rw [List.pairwise_append]
      refine ⟨hpw, List.pairwise_singleton _ _, ?_⟩
      intro a _ b hb
      rw [List.mem_singleton] at hb
      subst hb
      rintro ⟨_, _, hacc⟩
      rw [hstat] at hacc
      exact absurd hacc (by decide)
  | accept db db2 pid uid hdb hok ih =>
    obtain ⟨hids, hpw⟩ := ih
    unfold serviceAcceptPath repoAcceptPath at hok
    cases hfind : get_by_id db pid with
    | none =>
      rw [hfind] at hok
      simp at hok
    | some p =>
      rw [hfind] at hok
      by_cases howner : p.user_id = uid
      · by_cases hstat : p.status = "proposed"
        · simp only [howner, hstat] at hok
          simp at hok
          subst hok
          have hp_mem : p ∈ db := List.mem_of_find?_eq_some hfind
          have hp_id : p.id = pid := by
            have hx := List.find?_some hfind
            simpa using hx
          constructor
          · have hmapmap : (db.map (acceptUpdateRow pid uid)).map
                (fun r => r.id) = db.map (fun r => r.id) := by
              rw [List.map_map]
              apply List.map_congr_left
              intro a _
              exact acceptUpdateRow_id pid uid a
            rw [hmapmap]
            exact hids
          · rw [List.pairwise_map]
            have hidpw : db.Pairwise (fun a b => a.id ≠ b.id) :=
              List.pairwise_map.mp hids
            have hcomb := hpw.and hidpw
            apply List.Pairwise.imp_of_mem ?_ hcomb
            intro a b ha hb hall
            obtain ⟨hRab, hIdab⟩ := hall
            rintro ⟨huser, hacca, haccb⟩
            rw [acceptUpdateRow_user, acceptUpdateRow_user] at huser
            rcases acceptUpdateRow_accepted pid uid a hacca with
              haid | hpre_a
            · rcases acceptUpdateRow_accepted pid uid b haccb with
                hbid | hpre_b
              · exact hIdab (haid.trans hbid.symm)
              · have ha_eq_p : a = p :=
                  List.inj_on_of_nodup_map hids ha hp_mem
                    (by rw [haid, hp_id])
                exact hpre_b.2 (by rw [← huser, ha_eq_p]; exact howner)
            · rcases acceptUpdateRow_accepted pid uid b haccb with
                hbid | hpre_b
              · have hb_eq_p : b = p :=
                  List.inj_on_of_nodup_map hids hb hp_mem
                    (by rw [hbid, hp_id])
                exact hpre_a.2 (by rw [huser, hb_eq_p]; exact howner)
              · exact hRab ⟨huser, hpre_a.1, hpre_b.1⟩
        · simp [howner, hstat] at hok
      · simp [howner] at hok

/-- C1: for a path that exists, belongs to the requesting subject and is
"proposed", the accept operation succeeds and commits, in one step, the
table in which that path is "accepted", every other path of the subject
previously in {"proposed", "accepted"} is "discarded", and every remaining
row is untouched; and in every reachable post-commit table no subject owns
two "accepted" paths. -/
theorem claim_C1_accept_path :
    (∀ (db : List CareerPathRow) (pid uid : Nat) (p : CareerPathRow),
        get_by_id db pid = some p → p.user_id = uid →
        p.status = "proposed" →
        serviceAcceptPath db pid uid
          = Except.ok (db.map (acceptUpdateRow pid uid)) ∧
        (∀ r : CareerPathRow, r.id = pid →
          (acceptUpdateRow pid uid r).status = "accepted") ∧
        (∀ r : CareerPathRow, ¬ r.id = pid → r.user_id = uid →
          (r.status = "proposed" ∨ r.status = "accepted") →
          (acceptUpdateRow pid uid r).status = "discarded") ∧
        (∀ r : CareerPathRow, ¬ r.id = pid →
          (¬ r.user_id = uid ∨
            ¬ (r.status = "proposed" ∨ r.status = "accepted")) →
          acceptUpdateRow pid uid r = r)) ∧
    (∀ db : List CareerPathRow, ReachableDB db →
        db.Pairwise (fun a b => ¬ (a.user_id = b.user_id ∧
          a.status = "accepted" ∧ b.status = "accepted"))) := by
  constructor
  · intro db pid uid p hfind howner hstat
    refine ⟨serviceAcceptPath_ok db pid uid p hfind howner hstat,
      ?_, ?_, ?_⟩
    · intro r hr
      unfold acceptUpdateRow
      rw [if_pos hr]
    · intro r hrid hruser hrstat
      unfold acceptUpdateRow
      rw [if_neg hrid, if_pos ⟨hruser, hrid, hrstat⟩]
    · intro r hrid hother
      unfold acceptUpdateRow
      rw [if_neg hrid, if_neg ?_]
      rintro ⟨h1, h2, h3⟩
      rcases hother with h | h
      · exact h h1
      · exact h h3
  · intro db h
    exact (reachable_accept_inv db h).2

/-- A subject (user 5) holding an "accepted" path (id 1) and a "proposed"
path (id 2), next to another subject's "proposed" path (id 3). -/
def dbEx : List CareerPathRow :=
  [ { id := 1, user_id := 5, path_name := "Ruta A", recommended := true,
      feasibility_score := 1, total_duration_months := 12,
      status := "accepted" },
    { id := 2, user_id := 5, path_name := "Ruta B", recommended := false,
      feasibility_score := 0, total_duration_months := 24,
      status := "proposed" },
    { id := 3, user_id := 6, path_name := "Ruta C", recommended := false,
      feasibility_score := 0, total_duration_months := 18,
      status := "proposed" } ]

/-- The row the accept call fetches (id 2). -/
def rowBEx : CareerPathRow :=
  { id := 2, user_id := 5, path_name := "Ruta B", recommended := false,
    feasibility_score := 0, total_duration_months := 24,
    status := "proposed" }

/-- Witness for C1: user 5 accepts path 2 while owning accepted path 1;
the commit leaves path 2 "accepted", path 1 "discarded" and user 6's path
3 untouched; the empty table trivially has no doubly-accepting subject. -/
theorem claim_C1_accept_path_witness :
    serviceAcceptPath dbEx 2 5
      = Except.ok (dbEx.map (acceptUpdateRow 2 5)) ∧
    (dbEx.map (acceptUpdateRow 2 5)).map (fun r => (r.id, r.status))
      = [(1, "discarded"), (2, "accepted"), (3, "proposed")] ∧
    List.Pairwise (fun a b : CareerPathRow =>
      ¬ (a.user_id = b.user_id ∧ a.status = "accepted" ∧
        b.status = "accepted")) [] := by
  have h := claim_C1_accept_path
  exact ⟨(h.1 dbEx 2 5 rowBEx (by decide) rfl rfl).1, by decide,
    h.2 [] ReachableDB.empty⟩
